/-
Verification of the Wang-tile fill engine (src/tiled/wangfiller.cpp).

The file shallowly embeds `wangfiller.cpp` in Lean 4.  The collaborators that
the spec declares out of scope (WangId, WangSet, RandomPicker, Grid, TileLayer,
QRegion, StaggeredRenderer) are modelled from the spec's interface contracts;
every function of `wangfiller.cpp` itself is translated statement by statement.
Randomness (the weighted random picks) is made explicit through "choice
oracles": a run of the C++ code corresponds to some oracle value, and the
theorems quantify over all oracles.
-/
import Mathlib

namespace Tiled

/-- Modelled from the spec: integer grid coordinate (QPoint). -/
abbrev Point := Int × Int

/-- Modelled from the spec: a TerrainConstraint ("WangId") is an 8-slot vector
of terrain-color values, one slot per compass direction in the fixed order
N, NE, E, SE, S, SW, W, NW; value 0 means "unconstrained". -/
abbrev WangId := Fin 8 → Nat

/-- Modelled from the spec: the default, fully unconstrained WangId. -/
def emptyWangId : WangId := fun _ => 0

/-- Modelled from the spec: a WangId of a tile of one uniform terrain color
`c` has every slot equal to `c`. -/
def uniformWangId (c : Nat) : WangId := fun _ => c

/-- Modelled from the spec: `WangId::oppositeIndex`, the geometric opposite of
a direction (N to S, NE to SW, ...), i.e. rotation by 4 of the 8 slots. -/
def oppositeIndex (i : Fin 8) : Fin 8 := i + 4

/-- Modelled from the spec: `WangId::mask()`, the implicit mask: the set of
constrained slots, a slot being constrained iff its color value is non-zero. -/
def wangIdMask (w : WangId) (i : Fin 8) : Bool := w i != 0

/-- Modelled from the spec: bitwise `and` of a WangId with a mask bit pattern
(`wangId & mask` in the source): a slot keeps its value where the mask is set
and becomes 0 elsewhere. -/
def wangIdAndMask (w : WangId) (m : Fin 8 → Bool) : WangId :=
  fun i => if m i then w i else 0

/-- Modelled from the spec: `WangId::mergeFromAdjacent(other, dir)` sets the
single directional slot `dir` (the slot facing the adjacent cell) to the color
the adjacent cell has facing back, i.e. `other`'s slot at the opposite
direction; all other slots are untouched. -/
def mergeFromAdjacent (w adj : WangId) (i : Fin 8) : WangId :=
  Function.update w i (adj (oppositeIndex i))

/-- Modelled from the spec: `WangId::updateToAdjacent(placed, dir)` propagates
a placed constraint into this one: slot `dir` is set to the color the placed
cell has facing this one (`placed`'s slot at the opposite direction); all
other slots are untouched. -/
def updateToAdjacent (w placed : WangId) (i : Fin 8) : WangId :=
  Function.update w i (placed (oppositeIndex i))

/-- Modelled from the spec: a cell of a tile layer; it either holds a tile
(identified by a number) or is empty. -/
structure Cell where
  tile : Option Nat
deriving DecidableEq

/-- Modelled from the spec: `Cell::isEmpty()`. -/
def Cell.isEmpty (c : Cell) : Bool := c.tile.isNone

/-- Modelled from the spec: the default-constructed empty cell (`Cell()`). -/
def emptyCell : Cell := ⟨none⟩

/-- Modelled from the spec: a TileCandidate ("WangTile"): a reference to a
placeable tile (none for the default-constructed `WangTile()`, whose tile
pointer is null) plus the TerrainConstraint it satisfies when placed. -/
structure WangTile where
  tile : Option Nat
  wangId : WangId

instance : DecidableEq WangTile := fun a b =>
  decidable_of_iff (a.tile = b.tile ∧ a.wangId = b.wangId)
    (by cases a; cases b; simp)

/-- Modelled from the spec: `WangTile::makeCell()` builds the cell holding the
candidate's tile. -/
def WangTile.makeCell (wt : WangTile) : Cell := ⟨wt.tile⟩

/-- Modelled from the spec: the default-constructed `WangTile()`, whose tile
pointer is null. -/
def defaultWangTile : WangTile := ⟨none, emptyWangId⟩

/-- Modelled from the spec: the TileCatalog ("WangSet") interface the filler
consumes: the candidate list, per-candidate weights, completeness, constraint
matching, wildcard realizability, and the constraint-reading operations. -/
structure WangSet where
  wangTilesByWangId : List WangTile
  wangTileProbability : WangTile → Nat
  isComplete : Bool
  findMatchingWangTiles : WangId → List WangTile
  wildWangIdIsUsed : WangId → Bool
  wangIdOfCell : Cell → WangId
  wangIdFromSurrounding : (Fin 8 → Cell) → WangId

/-- Modelled from the spec: a tile layer (placement/background surface): a
local origin `pos` (`TileLayer::x()/y()/position()`) and the cells, indexed by
layer-local coordinates. -/
structure TileLayer where
  pos : Point
  cells : Point → Cell

/-- Modelled from the spec: `TileLayer::cellAt`. -/
def TileLayer.cellAt (t : TileLayer) (p : Point) : Cell := t.cells p

/-- Modelled from the spec: `TileLayer::setCell(x, y, cell)`. -/
def TileLayer.setCell (t : TileLayer) (x y : Int) (c : Cell) : TileLayer :=
  { t with cells := fun q => if q = (x, y) then c else t.cells q }

/-- Modelled from the spec: the sparse `Grid<WangId>` mapping coordinates to
accumulated desired constraints, defaulting to the fully unconstrained
WangId. -/
structure Grid where
  entries : Point → WangId

/-- Modelled from the spec: `Grid::get`. -/
def Grid.get (g : Grid) (p : Point) : WangId := g.entries p

/-- Modelled from the spec: `Grid::set`. -/
def Grid.set (g : Grid) (p : Point) (w : WangId) : Grid :=
  ⟨fun q => if q = p then w else g.entries q⟩

/-- Modelled from the spec: the default-constructed `Grid<WangId>()` with
every entry fully unconstrained. -/
def emptyGrid : Grid := ⟨fun _ => emptyWangId⟩

/-- Modelled from the spec: an axis-aligned rectangle of a QRegion, given by
inclusive `left/top/right/bottom` bounds. -/
structure Rect where
  left : Int
  top : Int
  right : Int
  bottom : Int

/-- Modelled from the spec: `QRect::contains`. -/
def Rect.containsPt (r : Rect) (p : Point) : Prop :=
  r.left ≤ p.1 ∧ p.1 ≤ r.right ∧ r.top ≤ p.2 ∧ p.2 ≤ r.bottom

instance (r : Rect) (p : Point) : Decidable (r.containsPt p) :=
  inferInstanceAs (Decidable (_ ∧ _ ∧ _ ∧ _))

/-- Modelled from the spec: a QRegion is a union of axis-aligned rectangles
(its rectangle enumeration). -/
abbrev Region := List Rect

/-- Modelled from the spec: `QRegion::contains`: membership in some rectangle
of the region. -/
def Region.contains (rg : Region) (p : Point) : Prop :=
  ∃ r ∈ rg, r.containsPt p

instance (rg : Region) (p : Point) : Decidable (Region.contains rg p) :=
  inferInstanceAs (Decidable (∃ r ∈ rg, r.containsPt p))

/-- Modelled from the spec: the stagger axis of a staggered map
(`Map::StaggerX` / `Map::StaggerY`). -/
inductive StaggerAxis where
  | X : StaggerAxis
  | Y : StaggerAxis
deriving DecidableEq

/-- Modelled from the spec: the StaggeredRenderer interface the filler
consumes: the four diagonal-neighbor primitives and the map's stagger axis. -/
structure StaggeredRenderer where
  topRight : Int → Int → Point
  bottomRight : Int → Int → Point
  bottomLeft : Int → Int → Point
  topLeft : Int → Int → Point
  staggerAxis : StaggerAxis

/-- The static `aroundTilePoints` offset table of wangfiller.cpp: unit offsets
in the order N, NE, E, SE, S, SW, W, NW. -/
def aroundTilePoints : Fin 8 → Point :=
  ![((0 : Int), (-1 : Int)), (1, -1), (1, 0), (1, 1),
    (0, 1), (-1, 1), (-1, 0), (-1, -1)]

/-- `getSurroundingPoints` of wangfiller.cpp: the 8 neighbor coordinates of a
point, using the staggered renderer's primitives and stagger-axis dependent
offsets when a renderer is present, and the plain unit offsets otherwise. -/
def getSurroundingPoints (point : Point) (sr : Option StaggeredRenderer) :
    Fin 8 → Point :=
  match sr with
  | some r =>
    ![r.topRight point.1 point.2,
      (if r.staggerAxis = StaggerAxis.X then point + ((2 : Int), (0 : Int))
       else point + (1, 0)),
      r.bottomRight point.1 point.2,
      (if r.staggerAxis = StaggerAxis.X then point + ((0 : Int), (1 : Int))
       else point + (0, 2)),
      r.bottomLeft point.1 point.2,
      (if r.staggerAxis = StaggerAxis.X then point + ((-2 : Int), (0 : Int))
       else point + (-1, 0)),
      r.topLeft point.1 point.2,
      (if r.staggerAxis = StaggerAxis.X then point + ((0 : Int), (-1 : Int))
       else point + (0, -2))]
  | none => fun i => point + aroundTilePoints i

/-- `WangFiller::getCell` of wangfiller.cpp: inside the fill region the cell
comes from the in-progress front layer (translated by the front layer's
origin), outside from the background layer. -/
def getCell (back front : TileLayer) (fillRegion : Region) (point : Point) :
    Cell :=
  if Region.contains fillRegion point then
    TileLayer.cellAt front (point.1 - front.pos.1, point.2 - front.pos.2)
  else
    TileLayer.cellAt back point

/-- `WangFiller::wangIdFromSurroundings` (back/front variant) of
wangfiller.cpp: the constraint implied by the 8 surrounding cells as resolved
by `getCell`. -/
def wangIdFromSurroundings (ws : WangSet) (sr : Option StaggeredRenderer)
    (back front : TileLayer) (fillRegion : Region) (point : Point) : WangId :=
  ws.wangIdFromSurrounding
    (fun i => getCell back front fillRegion (getSurroundingPoints point sr i))

/-- The adjacency feasibility check of `WangFiller::findFittingCell` for one
drawn candidate: every one of the 8 adjacent points is either already
occupied, or its constraint updated by this candidate's placement is still
realizable by some catalog tile (`wildWangIdIsUsed`). -/
def checkAdjacents (ws : WangSet) (sr : Option StaggeredRenderer)
    (back front : TileLayer) (fillRegion : Region) (point : Point)
    (wangTile : WangTile) : Bool :=
  (List.finRange 8).all fun i =>
    let adjacentPoint := getSurroundingPoints point sr i
    if !(getCell back front fillRegion adjacentPoint).isEmpty then true
    else
      ws.wildWangIdIsUsed
        (updateToAdjacent
          (wangIdFromSurroundings ws sr back front fillRegion adjacentPoint)
          wangTile.wangId (oppositeIndex i))

/-- The weighted draw-without-replacement loop of `WangFiller::findFittingCell`
for incomplete sets.  The RandomPicker is modelled from the spec as the pool
list; each `take` draws the element at an oracle-chosen index and removes it.
Returns the first drawn candidate passing `check`, and the last drawn
candidate when the pool is exhausted. -/
def fittingLoop (check : WangTile → Bool) (pool : List WangTile)
    (last : WangTile) (oracle : List Nat) : WangTile :=
  if h : pool.isEmpty then last
  else
    let idx := oracle.headD 0 % pool.length
    let wangTile := pool.getD idx defaultWangTile
    if check wangTile then wangTile
    else fittingLoop check (pool.eraseIdx idx) wangTile oracle.tail
termination_by pool.length
decreasing_by
  have hp : pool ≠ [] := by simpa [List.isEmpty_iff] using h
  have hl : 0 < pool.length := List.length_pos.mpr hp
  have hlt : oracle.headD 0 % pool.length < pool.length := Nat.mod_lt _ hl
  simp only [List.length_eraseIdx, hlt, if_pos]
  omega

/-- The draw sequence of `fittingLoop` ignoring the acceptance check: the
candidate held in the loop variable when the pool runs out (the last candidate
drawn). -/
def drawLast (pool : List WangTile) (last : WangTile) (oracle : List Nat) :
    WangTile :=
  if h : pool.isEmpty then last
  else
    let idx := oracle.headD 0 % pool.length
    drawLast (pool.eraseIdx idx) (pool.getD idx defaultWangTile) oracle.tail
termination_by pool.length
decreasing_by
  have hp : pool ≠ [] := by simpa [List.isEmpty_iff] using h
  have hl : 0 < pool.length := List.length_pos.mpr hp
  have hlt : oracle.headD 0 % pool.length < pool.length := Nat.mod_lt _ hl
  simp only [List.length_eraseIdx, hlt, if_pos]
  omega

/-- `WangFiller::findFittingCell` of wangfiller.cpp: derive the constraint
from the 8 surroundings, gather the matching candidates into the weighted
picker, return the empty cell if there are none, pick directly for complete
sets, and otherwise run the draw-and-check loop. -/
def findFittingCell (ws : WangSet) (sr : Option StaggeredRenderer)
    (back front : TileLayer) (fillRegion : Region) (point : Point)
    (oracle : List Nat) : Cell :=
  let wangId := wangIdFromSurroundings ws sr back front fillRegion point
  let wangTiles := ws.findMatchingWangTiles wangId
  if wangTiles.isEmpty then emptyCell
  else if ws.isComplete then
    (wangTiles.getD (oracle.headD 0 % wangTiles.length) defaultWangTile).makeCell
  else
    (fittingLoop (checkAdjacents ws sr back front fillRegion point)
      wangTiles defaultWangTile oracle).makeCell

/-- INT_MAX, the initial lowest penalty of `findBestMatch`. -/
def INT_MAX : Nat := 2147483647

/-- The penalty of `findBestMatch` in wangfiller.cpp: the count of the 8 slots
where the candidate's and the input's colors differ. -/
def penalty (c w : WangId) : Nat :=
  (List.finRange 8).countP fun i => c i != w i

/-- One iteration of the candidate scan of `findBestMatch` in wangfiller.cpp:
skip candidates failing the input-mask filter, reset the picker on a strictly
lower penalty, and add the candidate on a less-or-equal penalty. -/
def bestMatchStep (w : WangId) (acc : List WangTile × Nat)
    (wangTile : WangTile) : List WangTile × Nat :=
  if wangIdAndMask wangTile.wangId (wangIdMask w) =
      wangIdAndMask w (wangIdMask w) then
    if penalty wangTile.wangId w ≤ acc.2 then
      if penalty wangTile.wangId w < acc.2 then
        ([wangTile], penalty wangTile.wangId w)
      else (acc.1 ++ [wangTile], acc.2)
    else acc
  else acc

/-- The full candidate scan of `findBestMatch` in wangfiller.cpp: the final
picker contents and the final lowest penalty. -/
def bestMatchCandidates (wangSet : WangSet) (w : WangId) :
    List WangTile × Nat :=
  wangSet.wangTilesByWangId.foldl (bestMatchStep w) ([], INT_MAX)

/-- `findBestMatch` of wangfiller.cpp: run the scan, then pick one of the
final candidates (random pick modelled by the oracle index), or return the
default `WangTile()` when the picker is empty. -/
def findBestMatch (wangSet : WangSet) (wangId : WangId) (choice : Nat) :
    WangTile :=
  let matchList := (bestMatchCandidates wangSet wangId).1
  if matchList.isEmpty then defaultWangTile
  else matchList.getD (choice % matchList.length) defaultWangTile

/-- The list of integers from `a` to `b` inclusive (the iteration space of the
`for (int x = a; x <= b; ++x)` loops of wangfiller.cpp). -/
def intRange (a b : Int) : List Int :=
  (List.range (b + 1 - a).toNat).map fun n : Nat => a + (n : Int)

/-- One iteration of the first border-seeding loop of `WangFiller::fillRegion`
(wangfiller.cpp, Phase A, x loop): merge the outside constraints into the top
and bottom edge cells of the rectangle at column `x`. -/
def seedTopStep (ws : WangSet) (back : TileLayer) (region : Region)
    (rect : Rect) (g : Grid) (x : Int) : Grid :=
  let top : Point := (x, rect.top - 1)
  let bottom : Point := (x, rect.bottom + 1)
  let g1 :=
    if Region.contains region top then g
    else
      Grid.set g (x, rect.top)
        (mergeFromAdjacent (Grid.get g (x, rect.top))
          (ws.wangIdOfCell (TileLayer.cellAt back top)) 0)
  if Region.contains region bottom then g1
  else
    Grid.set g1 (x, rect.bottom)
      (mergeFromAdjacent (Grid.get g1 (x, rect.bottom))
        (ws.wangIdOfCell (TileLayer.cellAt back bottom)) 4)

/-- One iteration of the second border-seeding loop of `WangFiller::fillRegion`
(wangfiller.cpp, Phase A, y loop): merge the outside constraints into the left
and right edge cells of the rectangle at row `y`. -/
def seedSideStep (ws : WangSet) (back : TileLayer) (region : Region)
    (rect : Rect) (g : Grid) (y : Int) : Grid :=
  let left : Point := (rect.left - 1, y)
  let right : Point := (rect.right + 1, y)
  let g1 :=
    if Region.contains region left then g
    else
      Grid.set g (rect.left, y)
        (mergeFromAdjacent (Grid.get g (rect.left, y))
          (ws.wangIdOfCell (TileLayer.cellAt back left)) 6)
  if Region.contains region right then g1
  else
    Grid.set g1 (rect.right, y)
      (mergeFromAdjacent (Grid.get g1 (rect.right, y))
        (ws.wangIdOfCell (TileLayer.cellAt back right)) 2)

/-- Border seeding of one rectangle in `WangFiller::fillRegion`: the x loop
over the top/bottom edges followed by the y loop over the left/right edges. -/
def seedRect (ws : WangSet) (back : TileLayer) (region : Region)
    (rect : Rect) (g : Grid) : Grid :=
  (intRange rect.top rect.bottom).foldl (seedSideStep ws back region rect)
    ((intRange rect.left rect.right).foldl (seedTopStep ws back region rect) g)

/-- Phase A of `WangFiller::fillRegion` (wangfiller.cpp): border seeding over
every rectangle of the region. -/
def phaseA (ws : WangSet) (back : TileLayer) (region : Region) (g : Grid) :
    Grid :=
  region.foldl (fun g rect => seedRect ws back region rect g) g

/-- The propagation loop after one placement in Phase B of
`WangFiller::fillRegion` (wangfiller.cpp): for each of the 8 surrounding
points whose cell in the target layer is still empty, update its desired
constraint from the placed tile. -/
def propagateToNeighbors (sr : Option StaggeredRenderer) (target : TileLayer)
    (wangTile : WangTile) (c : Point) (g : Grid) : Grid :=
  let adjacentPoints := getSurroundingPoints c sr
  (List.finRange 8).foldl
    (fun g i =>
      let p := adjacentPoints i
      if !(TileLayer.cellAt target (p - target.pos)).isEmpty then g
      else
        Grid.set g p
          (updateToAdjacent (Grid.get g p) wangTile.wangId (oppositeIndex i)))
    g

/-- One cell of Phase B of `WangFiller::fillRegion` (wangfiller.cpp): find the
best match for the accumulated constraint, skip the cell when no tile is
found, and otherwise write the tile to the target layer and propagate to the
not-yet-occupied surrounding points. -/
def fillCell (ws : WangSet) (sr : Option StaggeredRenderer) (choice : Nat)
    (st : TileLayer × Grid) (c : Point) : TileLayer × Grid :=
  let wangTile := findBestMatch ws (Grid.get st.2 c) choice
  if wangTile.tile = none then st
  else
    let target :=
      TileLayer.setCell st.1 (c.1 - st.1.pos.1) (c.2 - st.1.pos.2)
        wangTile.makeCell
    (target, propagateToNeighbors sr target wangTile c st.2)

/-- The raster-order coordinate list of one rectangle (rows top to bottom,
left to right within a row), the iteration order of Phase B. -/
def cellsOfRect (rect : Rect) : List Point :=
  (intRange rect.top rect.bottom).flatMap fun y =>
    (intRange rect.left rect.right).map fun x => ((x : Int), y)

/-- The full Phase B coordinate list: every rectangle of the region in
order. -/
def cellsOfRegion (region : Region) : List Point :=
  region.flatMap cellsOfRect

/-- A sequence of Phase B iterations over indexed coordinates, each consuming
its own oracle choice. -/
def fillSteps (ws : WangSet) (sr : Option StaggeredRenderer)
    (oracle : Nat → Nat) (steps : List (Nat × Point))
    (st : TileLayer × Grid) : TileLayer × Grid :=
  steps.foldl (fun st step => fillCell ws sr (oracle step.1) st step.2) st

/-- Phase B of `WangFiller::fillRegion` (wangfiller.cpp): the raster wavefront
fill over the whole region. -/
def phaseB (ws : WangSet) (sr : Option StaggeredRenderer) (oracle : Nat → Nat)
    (region : Region) (st : TileLayer × Grid) : TileLayer × Grid :=
  fillSteps ws sr oracle (cellsOfRegion region).enum st

/-- `WangFiller::fillRegion(target, back, wangIds, region)` of wangfiller.cpp:
Phase A border seeding of the (by-value) constraint grid followed by the
Phase B wavefront fill; the mutated target layer is the result. -/
def fillRegion (ws : WangSet) (sr : Option StaggeredRenderer)
    (target back : TileLayer) (wangIds : Grid) (region : Region)
    (oracle : Nat → Nat) : TileLayer :=
  (phaseB ws sr oracle region (target, phaseA ws back region wangIds)).1

/-- The three-argument overload `WangFiller::fillRegion(target, back, region)`
of wangfiller.cpp: fill with a default-constructed constraint grid. -/
def fillRegionNoSeed (ws : WangSet) (sr : Option StaggeredRenderer)
    (target back : TileLayer) (region : Region) (oracle : Nat → Nat) :
    TileLayer :=
  fillRegion ws sr target back emptyGrid region oracle

/-- The mutable state visible to a caller of `WangFiller::fillRegion`: the
target layer (passed by reference), the background layer (const reference)
and the caller's constraint grid variable (passed by value). -/
structure FillState where
  target : TileLayer
  back : TileLayer
  wangIds : Grid

/-- A call to `WangFiller::fillRegion` as a transformer of the caller-visible
state: the callee receives a copy of the caller's grid (pass by value), reads
the background layer, and writes only the target layer. -/
def fillRegionCall (ws : WangSet) (sr : Option StaggeredRenderer)
    (s : FillState) (region : Region) (oracle : Nat → Nat) : FillState :=
  { target := fillRegion ws sr s.target s.back s.wangIds region oracle
    back := s.back
    wangIds := s.wangIds }

section Helpers

/-- A foldl preserves any property preserved by each of its steps. -/
theorem foldl_preserve {α σ : Type _} (f : σ → α → σ) (Q : σ → Prop)
    (l : List α) (h : ∀ s a, a ∈ l → Q s → Q (f s a)) :
    ∀ s, Q s → Q (l.foldl f s) := by
  induction l with
  | nil => intro s hs; simpa using hs
  | cons a t ih =>
    intro s hs
    simp only [List.foldl_cons]
    exact ih (fun s b hb => h s b (List.mem_cons_of_mem _ hb))
      (f s a) (h s a (List.mem_cons_self a t) hs)

theorem Grid.get_set (g : Grid) (p q : Point) (w : WangId) :
    Grid.get (Grid.set g p w) q = if q = p then w else Grid.get g q := rfl

theorem Grid.get_set_same (g : Grid) (p : Point) (w : WangId) :
    Grid.get (Grid.set g p w) p = w := by simp [Grid.get_set]

theorem Grid.get_set_ne (g : Grid) (p q : Point) (w : WangId) (h : q ≠ p) :
    Grid.get (Grid.set g p w) q = Grid.get g q := by simp [Grid.get_set, h]

theorem mergeFromAdjacent_same (w adj : WangId) (i : Fin 8) :
    mergeFromAdjacent w adj i i = adj (oppositeIndex i) := by
  simp [mergeFromAdjacent]

theorem mergeFromAdjacent_ne (w adj : WangId) (i j : Fin 8) (h : j ≠ i) :
    mergeFromAdjacent w adj i j = w j := by
  simp [mergeFromAdjacent, Function.update_apply, h]

theorem updateToAdjacent_same (w placed : WangId) (i : Fin 8) :
    updateToAdjacent w placed i i = placed (oppositeIndex i) := by
  simp [updateToAdjacent]

theorem updateToAdjacent_ne (w placed : WangId) (i j : Fin 8) (h : j ≠ i) :
    updateToAdjacent w placed i j = w j := by
  simp [updateToAdjacent, Function.update_apply, h]

theorem mem_intRange {a b x : Int} : x ∈ intRange a b ↔ a ≤ x ∧ x ≤ b := by
  unfold intRange
  rw [List.mem_map]
  constructor
  · rintro ⟨n, hn, rfl⟩
    rw [List.mem_range] at hn
    omega
  · rintro ⟨h1, h2⟩
    exact ⟨(x - a).toNat, by rw [List.mem_range]; omega, by omega⟩

theorem penalty_le (c w : WangId) : penalty c w ≤ 8 := by
  have := List.countP_le_length (l := List.finRange 8)
    (p := fun i => c i != w i)
  simpa using this

theorem getD_mem_of_ne_nil {l : List WangTile} (h : l ≠ []) (n : Nat) :
    l.getD (n % l.length) defaultWangTile ∈ l := by
  have hl : 0 < l.length := List.length_pos.mpr h
  have hlt : n % l.length < l.length := Nat.mod_lt _ hl
  rw [List.getD_eq_getElem l _ hlt]
  exact List.getElem_mem hlt

end Helpers

section BestMatch

/-- The input-mask filter of `findBestMatch`: the candidate's constraint and
the input agree once both are restricted to the input's mask. -/
def bmPass (w : WangId) (wt : WangTile) : Prop :=
  wangIdAndMask wt.wangId (wangIdMask w) = wangIdAndMask w (wangIdMask w)

instance (w : WangId) (wt : WangTile) : Decidable (bmPass w wt) :=
  inferInstanceAs (Decidable (_ = _))

/-- The loop invariant of the candidate scan of `findBestMatch`: the picker
holds exactly candidates passing the mask filter at the current lowest
penalty, the lowest penalty never increases and bounds the penalty of every
passing candidate seen so far, and the picker is empty exactly when nothing
passed yet. -/
theorem bestMatch_fold_inv (w : WangId) (l : List WangTile) :
    ∀ acc : List WangTile × Nat,
      (∀ t ∈ acc.1, bmPass w t ∧ penalty t.wangId w = acc.2) →
      (acc.1 = [] → acc.2 = INT_MAX) →
      (∀ t ∈ (l.foldl (bestMatchStep w) acc).1,
          bmPass w t ∧ penalty t.wangId w = (l.foldl (bestMatchStep w) acc).2) ∧
      (l.foldl (bestMatchStep w) acc).2 ≤ acc.2 ∧
      (∀ t ∈ l, bmPass w t →
          (l.foldl (bestMatchStep w) acc).2 ≤ penalty t.wangId w) ∧
      ((l.foldl (bestMatchStep w) acc).1 = [] ↔
          acc.1 = [] ∧ ∀ t ∈ l, ¬ bmPass w t) ∧
      ((l.foldl (bestMatchStep w) acc).1 = [] →
          (l.foldl (bestMatchStep w) acc).2 = INT_MAX) ∧
      (∀ t ∈ (l.foldl (bestMatchStep w) acc).1, t ∈ acc.1 ∨ t ∈ l) := by
  induction l with
  | nil =>
    intro acc h1 h2
    exact ⟨h1, le_refl _, by simp, by simp, h2, fun t ht => Or.inl ht⟩
  | cons a rest ih =>
    intro acc h1 h2
    simp only [List.foldl_cons]
    by_cases hpass :
        wangIdAndMask a.wangId (wangIdMask w) = wangIdAndMask w (wangIdMask w)
    · have hpassb : bmPass w a := hpass
      by_cases hlt : penalty a.wangId w < acc.2
      · have hstep : bestMatchStep w acc a = ([a], penalty a.wangId w) := by
          unfold bestMatchStep
          rw [if_pos hpass, if_pos (le_of_lt hlt), if_pos hlt]
        rw [hstep]
        have h1a : ∀ t ∈ [a],
            bmPass w t ∧ penalty t.wangId w = penalty a.wangId w := by
          intro t ht
          rw [List.mem_singleton] at ht
          subst ht; exact ⟨hpassb, rfl⟩
        obtain ⟨i1, i2, i3, i4, i5, i6⟩ :=
          ih ([a], penalty a.wangId w) h1a (by simp)
        refine ⟨i1, le_trans i2 (le_of_lt hlt), ?_, ?_, i5, ?_⟩
        · intro t ht hp
          rcases List.mem_cons.mp ht with h | h
          · subst h; exact i2
          · exact i3 t h hp
        · rw [i4]; simp [List.forall_mem_cons, hpassb]
        · intro t ht
          rcases i6 t ht with h | h
          · rw [List.mem_singleton] at h; subst h; simp
          · simp [h]
      · by_cases hle : penalty a.wangId w ≤ acc.2
        · have heq : penalty a.wangId w = acc.2 :=
            le_antisymm hle (not_lt.mp hlt)
          have hstep : bestMatchStep w acc a = (acc.1 ++ [a], acc.2) := by
            unfold bestMatchStep
            rw [if_pos hpass, if_pos hle, if_neg hlt]
          rw [hstep]
          have h1a : ∀ t ∈ acc.1 ++ [a],
              bmPass w t ∧ penalty t.wangId w = acc.2 := by
            intro t ht
            rcases List.mem_append.mp ht with h | h
            · exact h1 t h
            · rw [List.mem_singleton] at h; subst h; exact ⟨hpassb, heq⟩
          obtain ⟨i1, i2, i3, i4, i5, i6⟩ :=
            ih (acc.1 ++ [a], acc.2) h1a (by simp)
          refine ⟨i1, i2, ?_, ?_, i5, ?_⟩
          · intro t ht hp
            rcases List.mem_cons.mp ht with h | h
            · subst h; rw [heq]; exact i2
            · exact i3 t h hp
          · rw [i4]; simp [List.forall_mem_cons, hpassb]
          · intro t ht
            rcases i6 t ht with h | h
            · rcases List.mem_append.mp h with h | h
              · exact Or.inl h
              · rw [List.mem_singleton] at h; subst h; simp
            · simp [h]
        · have hstep : bestMatchStep w acc a = acc := by
            unfold bestMatchStep
            rw [if_pos hpass, if_neg hle]
          rw [hstep]
          obtain ⟨i1, i2, i3, i4, i5, i6⟩ := ih acc h1 h2
          refine ⟨i1, i2, ?_, ?_, i5, ?_⟩
          · intro t ht hp
            rcases List.mem_cons.mp ht with h | h
            · subst h; exact le_trans i2 (le_of_lt (not_le.mp hle))
            · exact i3 t h hp
          · rw [i4]
            constructor
            · rintro ⟨hae, _⟩
              exfalso
              apply hle
              rw [h2 hae]
              exact le_trans (penalty_le _ _) (by norm_num [INT_MAX])
            · rintro ⟨_, hall⟩
              exact absurd hpassb (hall a (List.mem_cons_self a rest))
          · intro t ht
            rcases i6 t ht with h | h
            · exact Or.inl h
            · simp [h]
    · have hstep : bestMatchStep w acc a = acc := by
        unfold bestMatchStep
        rw [if_neg hpass]
      rw [hstep]
      obtain ⟨i1, i2, i3, i4, i5, i6⟩ := ih acc h1 h2
      refine ⟨i1, i2, ?_, ?_, i5, ?_⟩
      · intro t ht hp
        rcases List.mem_cons.mp ht with h | h
        · subst h; exact absurd hp hpass
        · exact i3 t h hp
      · rw [i4]
        constructor
        · rintro ⟨hae, hrest⟩
          refine ⟨hae, fun t ht => ?_⟩
          rcases List.mem_cons.mp ht with h | h
          · subst h; exact hpass
          · exact hrest t h
        · rintro ⟨hae, hall⟩
          exact ⟨hae, fun t ht => hall t (List.mem_cons_of_mem _ ht)⟩
      · intro t ht
        rcases i6 t ht with h | h
        · exact Or.inl h
        · simp [h]

end BestMatch

section Fixtures

/-- Concrete candidate with every slot of terrain color 1, for witnesses. -/
def tileA : WangTile := ⟨some 1, uniformWangId 1⟩

/-- Concrete candidate with every slot of terrain color 2, for witnesses. -/
def tileB : WangTile := ⟨some 2, uniformWangId 2⟩

/-- Concrete two-candidate catalog, for witnesses. -/
def wsAB : WangSet :=
  ⟨[tileA, tileB], fun _ => 1, false, fun _ => [tileA, tileB],
    fun _ => false, fun _ => emptyWangId, fun _ => emptyWangId⟩

/-- Concrete everywhere-empty tile layer at origin, for witnesses. -/
def layerEmpty : TileLayer := ⟨(0, 0), fun _ => emptyCell⟩

/-- Concrete everywhere-occupied tile layer at origin, for witnesses. -/
def layerFull : TileLayer := ⟨(0, 0), fun _ => ⟨some 7⟩⟩

/-- Concrete grid demanding terrain color 3 everywhere, for witnesses. -/
def grid3 : Grid := ⟨fun _ => uniformWangId 3⟩

end Fixtures

/-- C1: every tile returned by `findBestMatch` satisfies
`(candidate.constraint & inputMask) == (constraint & inputMask)` for the
input's mask, and its penalty — the count of the 8 direction slots whose
color differs from the input's, slots outside the input's mask included — is
minimal among all catalog candidates satisfying that mask equation. -/
theorem findBestMatch_masked_and_minimal (ws : WangSet) (w : WangId)
    (choice : Nat) (hne : (bestMatchCandidates ws w).1 ≠ []) :
    bmPass w (findBestMatch ws w choice) ∧
    ∀ t ∈ ws.wangTilesByWangId, bmPass w t →
      penalty (findBestMatch ws w choice).wangId w ≤ penalty t.wangId w := by
  obtain ⟨i1, _, i3, _, _, _⟩ :=
    bestMatch_fold_inv w ws.wangTilesByWangId ([], INT_MAX)
      (by simp) (by simp)
  have hfb : findBestMatch ws w choice =
      (bestMatchCandidates ws w).1.getD
        (choice % (bestMatchCandidates ws w).1.length) defaultWangTile := by
    unfold findBestMatch
    rw [if_neg]
    simpa [List.isEmpty_iff] using hne
  have hmem : findBestMatch ws w choice ∈ (bestMatchCandidates ws w).1 := by
    rw [hfb]
    exact getD_mem_of_ne_nil hne choice
  obtain ⟨hp, hpen⟩ := i1 _ hmem
  refine ⟨hp, fun t ht hpt => ?_⟩
  rw [hpen]
  exact i3 t ht hpt

/-- Witness for C1 on a concrete catalog and input constraint. -/
theorem findBestMatch_masked_and_minimal_witness :
    (bestMatchCandidates wsAB (uniformWangId 1)).1 ≠ [] ∧
    (bmPass (uniformWangId 1) (findBestMatch wsAB (uniformWangId 1) 0) ∧
     ∀ t ∈ wsAB.wangTilesByWangId, bmPass (uniformWangId 1) t →
       penalty (findBestMatch wsAB (uniformWangId 1) 0).wangId
           (uniformWangId 1) ≤
         penalty t.wangId (uniformWangId 1)) :=
  ⟨by decide, findBestMatch_masked_and_minimal wsAB (uniformWangId 1) 0
    (by decide)⟩

/-- C4: `findBestMatch` yields no tile exactly when the catalog is empty or
no candidate passes the input-mask filter, and in that case the Phase B
iteration leaves the cell unplaced and does not propagate: the state is
returned unchanged and the fill continues with the remaining cells. -/
theorem findBestMatch_none_iff_no_candidate (ws : WangSet)
    (sr : Option StaggeredRenderer) (choice : Nat) (st : TileLayer × Grid)
    (c : Point) (hWF : ∀ t ∈ ws.wangTilesByWangId, t.tile ≠ none) :
    ((findBestMatch ws (Grid.get st.2 c) choice).tile = none ↔
      (ws.wangTilesByWangId = [] ∨
        ∀ t ∈ ws.wangTilesByWangId, ¬ bmPass (Grid.get st.2 c) t)) ∧
    ((findBestMatch ws (Grid.get st.2 c) choice).tile = none →
      fillCell ws sr choice st c = st) := by
  set w := Grid.get st.2 c with hw
  obtain ⟨_, _, _, i4, _, i6⟩ :=
    bestMatch_fold_inv w ws.wangTilesByWangId ([], INT_MAX)
      (by simp) (by simp)
  have hiff : (findBestMatch ws w choice).tile = none ↔
      (ws.wangTilesByWangId = [] ∨
        ∀ t ∈ ws.wangTilesByWangId, ¬ bmPass w t) := by
    constructor
    · intro htile
      by_cases hne : (bestMatchCandidates ws w).1 = []
      · exact Or.inr (i4.mp hne).2
      · exfalso
        have hfb : findBestMatch ws w choice =
            (bestMatchCandidates ws w).1.getD
              (choice % (bestMatchCandidates ws w).1.length)
              defaultWangTile := by
          unfold findBestMatch
          rw [if_neg]
          simpa [List.isEmpty_iff] using hne
        have hmem : findBestMatch ws w choice ∈
            (bestMatchCandidates ws w).1 := by
          rw [hfb]
          exact getD_mem_of_ne_nil hne choice
        rcases i6 _ hmem with h | h
        · simp at h
        · exact hWF _ h htile
    · intro hcase
      have hall : ∀ t ∈ ws.wangTilesByWangId, ¬ bmPass w t := by
        rcases hcase with h | h
        · rw [h]; simp
        · exact h
      have hempty : (bestMatchCandidates ws w).1 = [] := i4.mpr ⟨rfl, hall⟩
      unfold findBestMatch
      rw [if_pos]
      · rfl
      · simpa [List.isEmpty_iff] using hempty
  refine ⟨hiff, fun htile => ?_⟩
  simp only [fillCell]
  rw [if_pos htile]

/-- Witness for C4 on a concrete catalog, constraint grid and cell. -/
theorem findBestMatch_none_iff_no_candidate_witness :
    ((findBestMatch wsAB (Grid.get grid3 (0, 0)) 0).tile = none ↔
      (wsAB.wangTilesByWangId = [] ∨
        ∀ t ∈ wsAB.wangTilesByWangId, ¬ bmPass (Grid.get grid3 (0, 0)) t)) ∧
    ((findBestMatch wsAB (Grid.get grid3 (0, 0)) 0).tile = none →
      fillCell wsAB none 0 (layerEmpty, grid3) (0, 0) =
        (layerEmpty, grid3)) :=
  findBestMatch_none_iff_no_candidate wsAB none 0 (layerEmpty, grid3) (0, 0)
    (by decide)

section FittingLoop

/-- The draw-and-check loop always returns a member of a non-empty pool, and
when every pool candidate fails the check it returns exactly the last
candidate of the draw sequence. -/
theorem fittingLoop_cases (check : WangTile → Bool) :
    ∀ (n : Nat) (pool : List WangTile) (last : WangTile) (oracle : List Nat),
      pool.length = n →
      (pool ≠ [] → fittingLoop check pool last oracle ∈ pool) ∧
      ((∀ wt ∈ pool, check wt = false) →
        fittingLoop check pool last oracle = drawLast pool last oracle) := by
  intro n
  induction n using Nat.strong_induction_on with
  | _ n ih =>
    intro pool last oracle hlen
    by_cases hp : pool = []
    · subst hp
      refine ⟨fun h => absurd rfl h, fun _ => ?_⟩
      rw [fittingLoop, drawLast]
      simp
    · have hpe : pool.isEmpty = false := by
        simpa [List.isEmpty_iff] using hp
      have hpos : 0 < pool.length := List.length_pos.mpr hp
      have hidx : oracle.headD 0 % pool.length < pool.length :=
        Nat.mod_lt _ hpos
      have hwt : pool.getD (oracle.headD 0 % pool.length) defaultWangTile
          ∈ pool := getD_mem_of_ne_nil hp _
      have hrest : (pool.eraseIdx (oracle.headD 0 % pool.length)).length <
          n := by
        rw [List.length_eraseIdx_of_lt hidx]
        omega
      have hloop : fittingLoop check pool last oracle =
          if check (pool.getD (oracle.headD 0 % pool.length)
              defaultWangTile) then
            pool.getD (oracle.headD 0 % pool.length) defaultWangTile
          else
            fittingLoop check
              (pool.eraseIdx (oracle.headD 0 % pool.length))
              (pool.getD (oracle.headD 0 % pool.length) defaultWangTile)
              oracle.tail := by
        rw [fittingLoop]
        simp [hpe]
      have hdraw : drawLast pool last oracle =
          drawLast (pool.eraseIdx (oracle.headD 0 % pool.length))
            (pool.getD (oracle.headD 0 % pool.length) defaultWangTile)
            oracle.tail := by
        rw [drawLast]
        simp [hpe]
      obtain ⟨ihmem, ihdraw⟩ :=
        ih _ hrest (pool.eraseIdx (oracle.headD 0 % pool.length))
          (pool.getD (oracle.headD 0 % pool.length) defaultWangTile)
          oracle.tail rfl
      constructor
      · intro _
        rw [hloop]
        by_cases hc : check (pool.getD (oracle.headD 0 % pool.length)
            defaultWangTile) = true
        · rw [if_pos hc]
          exact hwt
        · rw [if_neg hc]
          by_cases hre : pool.eraseIdx (oracle.headD 0 % pool.length) = []
          · rw [hre, fittingLoop]
            simpa using hwt
          · exact List.eraseIdx_subset _ _ (ihmem hre)
      · intro hall
        rw [hloop, if_neg (by rw [hall _ hwt]; simp), hdraw]
        exact ihdraw fun wt hwtm =>
          hall wt (List.eraseIdx_subset _ _ hwtm)

end FittingLoop

/-- C5: with an incomplete catalog and a non-empty pool of constraint-matching
candidates, `findFittingCell` returns the cell of some drawn pool candidate —
never the empty cell when the catalog's candidates hold actual tiles — and
when every drawn candidate fails the lookahead feasibility check, the
candidate returned is the last one drawn before the pool was exhausted. -/
theorem findFittingCell_incomplete_fallback (ws : WangSet)
    (sr : Option StaggeredRenderer) (back front : TileLayer)
    (fillRegion : Region) (point : Point) (oracle : List Nat)
    (hne : ws.findMatchingWangTiles
      (wangIdFromSurroundings ws sr back front fillRegion point) ≠ [])
    (hinc : ws.isComplete = false) :
    (∃ wt ∈ ws.findMatchingWangTiles
        (wangIdFromSurroundings ws sr back front fillRegion point),
      findFittingCell ws sr back front fillRegion point oracle =
        wt.makeCell) ∧
    ((∀ wt ∈ ws.findMatchingWangTiles
        (wangIdFromSurroundings ws sr back front fillRegion point),
        wt.tile ≠ none) →
      (findFittingCell ws sr back front fillRegion point oracle).isEmpty =
        false) ∧
    ((∀ wt ∈ ws.findMatchingWangTiles
        (wangIdFromSurroundings ws sr back front fillRegion point),
        checkAdjacents ws sr back front fillRegion point wt = false) →
      findFittingCell ws sr back front fillRegion point oracle =
        (drawLast
          (ws.findMatchingWangTiles
            (wangIdFromSurroundings ws sr back front fillRegion point))
          defaultWangTile oracle).makeCell) := by
  set l := ws.findMatchingWangTiles
    (wangIdFromSurroundings ws sr back front fillRegion point) with hl
  have hffc : findFittingCell ws sr back front fillRegion point oracle =
      (fittingLoop (checkAdjacents ws sr back front fillRegion point) l
        defaultWangTile oracle).makeCell := by
    simp only [findFittingCell]
    rw [← hl, if_neg (by simpa [List.isEmpty_iff] using hne), if_neg
      (by rw [hinc]; simp)]
  obtain ⟨hmem, hdraw⟩ :=
    fittingLoop_cases (checkAdjacents ws sr back front fillRegion point)
      l.length l defaultWangTile oracle rfl
  refine ⟨⟨_, hmem hne, hffc⟩, fun hWF => ?_, fun hall => ?_⟩
  · rw [hffc]
    have := hWF _ (hmem hne)
    unfold WangTile.makeCell Cell.isEmpty
    cases hx : (fittingLoop (checkAdjacents ws sr back front fillRegion
        point) l defaultWangTile oracle).tile with
    | none => exact absurd hx (by rw [← hx] at this ⊢; exact this)
    | some v => simp [hx]
  · rw [hffc, hdraw hall]

/-- Witness for C5 on a concrete incomplete catalog whose candidates all fail
the lookahead check. -/
theorem findFittingCell_incomplete_fallback_witness :
    (∃ wt ∈ wsAB.findMatchingWangTiles
        (wangIdFromSurroundings wsAB none layerEmpty layerEmpty [] (0, 0)),
      findFittingCell wsAB none layerEmpty layerEmpty [] (0, 0) [0] =
        wt.makeCell) ∧
    ((∀ wt ∈ wsAB.findMatchingWangTiles
        (wangIdFromSurroundings wsAB none layerEmpty layerEmpty [] (0, 0)),
        wt.tile ≠ none) →
      (findFittingCell wsAB none layerEmpty layerEmpty [] (0, 0)
        [0]).isEmpty = false) ∧
    ((∀ wt ∈ wsAB.findMatchingWangTiles
        (wangIdFromSurroundings wsAB none layerEmpty layerEmpty [] (0, 0)),
        checkAdjacents wsAB none layerEmpty layerEmpty [] (0, 0) wt =
          false) →
      findFittingCell wsAB none layerEmpty layerEmpty [] (0, 0) [0] =
        (drawLast
          (wsAB.findMatchingWangTiles
            (wangIdFromSurroundings wsAB none layerEmpty layerEmpty []
              (0, 0)))
          defaultWangTile [0]).makeCell) :=
  findFittingCell_incomplete_fallback wsAB none layerEmpty layerEmpty []
    (0, 0) [0] (by decide) (by decide)

/-- Concrete complete catalog whose matching function is empty exactly on the
fully unconstrained input, for witnesses. -/
def wsC6 : WangSet :=
  ⟨[tileA], fun _ => 1, true,
    fun w => if w 0 = 0 then [] else [tileA],
    fun _ => true, fun _ => emptyWangId,
    fun cells => if (cells 0).isEmpty then emptyWangId else uniformWangId 1⟩

/-- C6: in `findFittingCell`, an empty matching-candidate set yields the empty
cell; otherwise, for a complete catalog, the result is the weighted random
pick from the matching set returned immediately, with no lookahead
filtering. -/
theorem findFittingCell_empty_or_complete (ws : WangSet)
    (sr : Option StaggeredRenderer) (back front : TileLayer)
    (fillRegion : Region) (point : Point) (oracle : List Nat) :
    (ws.findMatchingWangTiles
        (wangIdFromSurroundings ws sr back front fillRegion point) = [] →
      findFittingCell ws sr back front fillRegion point oracle =
        emptyCell) ∧
    (ws.isComplete = true →
      ws.findMatchingWangTiles
        (wangIdFromSurroundings ws sr back front fillRegion point) ≠ [] →
      findFittingCell ws sr back front fillRegion point oracle =
        ((ws.findMatchingWangTiles
            (wangIdFromSurroundings ws sr back front fillRegion point)).getD
          (oracle.headD 0 %
            (ws.findMatchingWangTiles
              (wangIdFromSurroundings ws sr back front fillRegion
                point)).length)
          defaultWangTile).makeCell) := by
  constructor
  · intro h
    simp only [findFittingCell]
    rw [if_pos]
    simpa [List.isEmpty_iff] using h
  · intro hcomp hne
    simp only [findFittingCell]
    rw [if_neg (by simpa [List.isEmpty_iff] using hne), if_pos hcomp]

/-- Witness for C6: an empty matching set at one input and the direct
complete-catalog pick at another. -/
theorem findFittingCell_empty_or_complete_witness :
    (findFittingCell wsC6 none layerEmpty layerEmpty [] (0, 0) [0] =
      emptyCell) ∧
    (findFittingCell wsC6 none layerFull layerFull [] (0, 0) [0] =
      ((wsC6.findMatchingWangTiles
          (wangIdFromSurroundings wsC6 none layerFull layerFull []
            (0, 0))).getD
        ([0].headD 0 %
          (wsC6.findMatchingWangTiles
            (wangIdFromSurroundings wsC6 none layerFull layerFull []
              (0, 0))).length)
        defaultWangTile).makeCell) :=
  ⟨(findFittingCell_empty_or_complete wsC6 none layerEmpty layerEmpty []
      (0, 0) [0]).1 (by decide),
   (findFittingCell_empty_or_complete wsC6 none layerFull layerFull []
      (0, 0) [0]).2 (by decide) (by decide)⟩

/-- C7: `getCell` returns the in-progress front layer's cell (relative to the
front layer's origin) inside the fill region, and the background layer's cell
outside it. -/
theorem getCell_front_or_back (back front : TileLayer) (region : Region)
    (p : Point) :
    (Region.contains region p →
      getCell back front region p =
        TileLayer.cellAt front (p.1 - front.pos.1, p.2 - front.pos.2)) ∧
    (¬ Region.contains region p →
      getCell back front region p = TileLayer.cellAt back p) := by
  constructor <;> intro h <;> simp [getCell, h]

/-- Witness for C7 at a point inside and a point outside a concrete region. -/
theorem getCell_front_or_back_witness :
    (Region.contains [Rect.mk 0 0 1 1] ((0 : Int), (0 : Int)) →
      getCell layerFull layerEmpty [Rect.mk 0 0 1 1] (0, 0) =
        TileLayer.cellAt layerEmpty
          ((0 : Int) - layerEmpty.pos.1, (0 : Int) - layerEmpty.pos.2)) ∧
    (¬ Region.contains [Rect.mk 0 0 1 1] ((5 : Int), (5 : Int)) →
      getCell layerFull layerEmpty [Rect.mk 0 0 1 1] (5, 5) =
        TileLayer.cellAt layerFull (5, 5)) ∧
    Region.contains [Rect.mk 0 0 1 1] ((0 : Int), (0 : Int)) ∧
    ¬ Region.contains [Rect.mk 0 0 1 1] ((5 : Int), (5 : Int)) :=
  ⟨(getCell_front_or_back layerFull layerEmpty [Rect.mk 0 0 1 1] (0, 0)).1,
   (getCell_front_or_back layerFull layerEmpty [Rect.mk 0 0 1 1] (5, 5)).2,
   by decide, by decide⟩

/-- Concrete staggered renderer with stagger axis X, for witnesses. -/
def rendX : StaggeredRenderer :=
  ⟨fun x y => (x + 1, y - 1), fun x y => (x + 1, y + 1),
   fun x y => (x - 1, y + 1), fun x y => (x - 1, y - 1), StaggerAxis.X⟩

/-- Concrete staggered renderer with stagger axis Y, for witnesses. -/
def rendY : StaggeredRenderer :=
  ⟨fun x y => (x + 1, y - 1), fun x y => (x + 1, y + 1),
   fun x y => (x - 1, y + 1), fun x y => (x - 1, y - 1), StaggerAxis.Y⟩

/-- C8: with a staggered renderer, `getSurroundingPoints` takes the N, E, S, W
slots from the renderer's topRight/bottomRight/bottomLeft/topLeft primitives,
and the remaining slots are the 2-step horizontal and 1-step vertical offsets
for stagger axis X, and the 2-step vertical and 1-step horizontal offsets for
stagger axis Y. -/
theorem getSurroundingPoints_staggered (r : StaggeredRenderer) (p : Point) :
    getSurroundingPoints p (some r) 0 = r.topRight p.1 p.2 ∧
    getSurroundingPoints p (some r) 2 = r.bottomRight p.1 p.2 ∧
    getSurroundingPoints p (some r) 4 = r.bottomLeft p.1 p.2 ∧
    getSurroundingPoints p (some r) 6 = r.topLeft p.1 p.2 ∧
    (r.staggerAxis = StaggerAxis.X →
      getSurroundingPoints p (some r) 1 = p + (2, 0) ∧
      getSurroundingPoints p (some r) 3 = p + (0, 1) ∧
      getSurroundingPoints p (some r) 5 = p + (-2, 0) ∧
      getSurroundingPoints p (some r) 7 = p + (0, -1)) ∧
    (r.staggerAxis = StaggerAxis.Y →
      getSurroundingPoints p (some r) 1 = p + (1, 0) ∧
      getSurroundingPoints p (some r) 3 = p + (0, 2) ∧
      getSurroundingPoints p (some r) 5 = p + (-1, 0) ∧
      getSurroundingPoints p (some r) 7 = p + (0, -2)) := by
  refine ⟨rfl, rfl, rfl, rfl, fun hX => ?_, fun hY => ?_⟩
  · refine ⟨?_, ?_, ?_, ?_⟩ <;> (simp only [getSurroundingPoints, hX]; rfl)
  · refine ⟨?_, ?_, ?_, ?_⟩ <;> (simp only [getSurroundingPoints, hY]; rfl)

/-- Witness for C8 on concrete renderers for both stagger axes. -/
theorem getSurroundingPoints_staggered_witness :
    getSurroundingPoints (0, 0) (some rendX) 0 = rendX.topRight 0 0 ∧
    getSurroundingPoints (0, 0) (some rendX) 1 =
      ((0 : Int), (0 : Int)) + (2, 0) ∧
    getSurroundingPoints (0, 0) (some rendY) 3 =
      ((0 : Int), (0 : Int)) + (0, 2) :=
  ⟨(getSurroundingPoints_staggered rendX (0, 0)).1,
   ((getSurroundingPoints_staggered rendX (0, 0)).2.2.2.2.1 rfl).1,
   ((getSurroundingPoints_staggered rendY (0, 0)).2.2.2.2.2 rfl).2.1⟩

/-- C9: a `fillRegion` call mutates only the target layer: the background
layer and the caller's (pass-by-value) constraint grid are unchanged when the
call returns. -/
theorem fillRegionCall_frame (ws : WangSet) (sr : Option StaggeredRenderer)
    (s : FillState) (region : Region) (oracle : Nat → Nat) :
    (fillRegionCall ws sr s region oracle).back = s.back ∧
    (fillRegionCall ws sr s region oracle).wangIds = s.wangIds :=
  ⟨rfl, rfl⟩

section PhaseB

/-- Folding propagation steps whose adjacent points avoid `p` leaves the grid
entry at `p` unchanged. -/
theorem propagate_fold_pres (target : TileLayer) (wt : WangTile)
    (adj : Fin 8 → Point) (p : Point) (l : List (Fin 8))
    (h : ∀ j ∈ l, adj j ≠ p) (g : Grid) :
    Grid.get
      (l.foldl
        (fun g i =>
          if !(TileLayer.cellAt target (adj i - target.pos)).isEmpty then g
          else
            Grid.set g (adj i)
              (updateToAdjacent (Grid.get g (adj i)) wt.wangId
                (oppositeIndex i)))
        g) p = Grid.get g p := by
  refine foldl_preserve _ (fun g' => Grid.get g' p = Grid.get g p) l
    (fun g' j hj hq => ?_) g rfl
  dsimp only
  by_cases hb : (TileLayer.cellAt target (adj j - target.pos)).isEmpty = true
  · rw [if_neg (by simp [hb])]
    rw [Grid.get_set_ne _ _ _ _ (Ne.symm (h j hj))]
    exact hq
  · rw [if_pos (by simp [Bool.not_eq_true] at hb ⊢; exact hb)]
    exact hq

/-- C10: the propagation step after a placement updates the constraint-grid
entry of every one of the 8 surrounding points whose target-layer cell is
empty, with no region-membership check: the entry is updated even for points
lying outside any fill region. -/
theorem propagate_updates_empty_neighbor (sr : Option StaggeredRenderer)
    (target : TileLayer) (wt : WangTile) (c : Point) (g : Grid)
    (region : Region) (i : Fin 8)
    (hdist : ∀ j : Fin 8, j ≠ i →
      getSurroundingPoints c sr j ≠ getSurroundingPoints c sr i)
    (hempty : (TileLayer.cellAt target
      (getSurroundingPoints c sr i - target.pos)).isEmpty = true)
    (houtside : ¬ Region.contains region (getSurroundingPoints c sr i)) :
    Grid.get (propagateToNeighbors sr target wt c g)
        (getSurroundingPoints c sr i) =
      updateToAdjacent (Grid.get g (getSurroundingPoints c sr i))
        wt.wangId (oppositeIndex i) := by
  have hi : i ∈ List.finRange 8 := List.mem_finRange i
  obtain ⟨s, t, hst⟩ := List.append_of_mem hi
  have hnd : (s ++ i :: t).Nodup := by
    rw [← hst]; exact List.nodup_finRange 8
  rw [List.nodup_append] at hnd
  obtain ⟨_, hndit, hdisj⟩ := hnd
  have his : i ∉ s := fun hmem => hdisj hmem (List.mem_cons_self i t)
  have hit : i ∉ t := (List.nodup_cons.mp hndit).1
  simp only [propagateToNeighbors]
  rw [hst, List.foldl_append, List.foldl_cons]
  have hs_pres :
      Grid.get
        (s.foldl
          (fun g j =>
            if !(TileLayer.cellAt target
                (getSurroundingPoints c sr j - target.pos)).isEmpty then g
            else
              Grid.set g (getSurroundingPoints c sr j)
                (updateToAdjacent (Grid.get g (getSurroundingPoints c sr j))
                  wt.wangId (oppositeIndex j)))
          g) (getSurroundingPoints c sr i) =
        Grid.get g (getSurroundingPoints c sr i) :=
    propagate_fold_pres target wt _ _ s
      (fun j hj => hdist j (fun he => his (he ▸ hj))) g
  rw [if_neg (by simp [hempty])]
  rw [propagate_fold_pres target wt _ _ t
    (fun j hj => hdist j (fun he => hit (he ▸ hj))) _]
  rw [Grid.get_set_same, hs_pres]

/-- Witness for C10: an empty orthogonal neighbor outside a concrete region
gets its entry updated by the propagation step. -/
theorem propagate_updates_empty_neighbor_witness :
    (∀ j : Fin 8, j ≠ 0 →
      getSurroundingPoints (0, 0) none j ≠ getSurroundingPoints (0, 0) none 0) ∧
    ((TileLayer.cellAt layerEmpty
      (getSurroundingPoints (0, 0) none 0 - layerEmpty.pos)).isEmpty = true) ∧
    (¬ Region.contains [Rect.mk 0 0 1 1]
      (getSurroundingPoints (0, 0) none 0)) ∧
    Grid.get (propagateToNeighbors none layerEmpty tileA (0, 0) grid3)
        (getSurroundingPoints (0, 0) none 0) =
      updateToAdjacent (Grid.get grid3 (getSurroundingPoints (0, 0) none 0))
        tileA.wangId (oppositeIndex 0) :=
  ⟨by decide, by decide, by decide,
   propagate_updates_empty_neighbor none layerEmpty tileA (0, 0) grid3
     [Rect.mk 0 0 1 1] 0 (by decide) (by decide) (by decide)⟩

/-- Writing a cell never moves a layer's origin. -/
theorem TileLayer.setCell_pos (t : TileLayer) (x y : Int) (c : Cell) :
    (TileLayer.setCell t x y c).pos = t.pos := rfl

/-- A Phase B iteration with no best match leaves the state unchanged. -/
theorem fillCell_skip (ws : WangSet) (sr : Option StaggeredRenderer) (n : Nat)
    (st : TileLayer × Grid) (c0 : Point)
    (h : (findBestMatch ws (Grid.get st.2 c0) n).tile = none) :
    fillCell ws sr n st c0 = st := by
  simp only [fillCell]
  rw [if_pos h]

/-- A Phase B iteration with a best match writes the tile and propagates. -/
theorem fillCell_place (ws : WangSet) (sr : Option StaggeredRenderer)
    (n : Nat) (st : TileLayer × Grid) (c0 : Point)
    (h : ¬ (findBestMatch ws (Grid.get st.2 c0) n).tile = none) :
    fillCell ws sr n st c0 =
      (TileLayer.setCell st.1 (c0.1 - st.1.pos.1) (c0.2 - st.1.pos.2)
        (findBestMatch ws (Grid.get st.2 c0) n).makeCell,
       propagateToNeighbors sr
         (TileLayer.setCell st.1 (c0.1 - st.1.pos.1) (c0.2 - st.1.pos.2)
           (findBestMatch ws (Grid.get st.2 c0) n).makeCell)
         (findBestMatch ws (Grid.get st.2 c0) n) c0 st.2) := by
  simp only [fillCell]
  rw [if_neg h]

/-- A Phase B iteration changes grid entries only at surrounding points of
the placed coordinate whose cell in the updated target layer is empty. -/
theorem fillCell_changes_only_adjacent_empty (ws : WangSet)
    (sr : Option StaggeredRenderer) (n : Nat) (st : TileLayer × Grid)
    (c0 p : Point)
    (hchange : Grid.get (fillCell ws sr n st c0).2 p ≠ Grid.get st.2 p) :
    ∃ i : Fin 8, p = getSurroundingPoints c0 sr i ∧
      (TileLayer.cellAt (fillCell ws sr n st c0).1
        (p - st.1.pos)).isEmpty = true := by
  by_cases htile : (findBestMatch ws (Grid.get st.2 c0) n).tile = none
  · exact absurd (by rw [fillCell_skip ws sr n st c0 htile])
      hchange
  · by_contra hno
    push_neg at hno
    apply hchange
    rw [fillCell_place ws sr n st c0 htile] at hno ⊢
    simp only at hno ⊢
    simp only [propagateToNeighbors]
    refine foldl_preserve _ (fun g' => Grid.get g' p = Grid.get st.2 p) _
      (fun g' j hj hq => ?_) st.2 rfl
    dsimp only
    by_cases hb : (TileLayer.cellAt
        (TileLayer.setCell st.1 (c0.1 - st.1.pos.1) (c0.2 - st.1.pos.2)
          (findBestMatch ws (Grid.get st.2 c0) n).makeCell)
        (getSurroundingPoints c0 sr j -
          (TileLayer.setCell st.1 (c0.1 - st.1.pos.1) (c0.2 - st.1.pos.2)
            (findBestMatch ws (Grid.get st.2 c0) n).makeCell).pos)).isEmpty
        = true
    · rw [if_neg (by simp [hb])]
      have hne : getSurroundingPoints c0 sr j ≠ p := by
        intro he
        apply hno j he.symm
        rw [TileLayer.setCell_pos] at hb
        rw [he] at hb
        exact hb
      rw [Grid.get_set_ne _ _ _ _ (Ne.symm hne)]
      exact hq
    · rw [if_pos (by simp [Bool.not_eq_true] at hb ⊢; exact hb)]
      exact hq

/-- A Phase B iteration never moves the target layer's origin. -/
theorem fillCell_pos (ws : WangSet) (sr : Option StaggeredRenderer) (n : Nat)
    (st : TileLayer × Grid) (c : Point) :
    (fillCell ws sr n st c).1.pos = st.1.pos := by
  simp only [fillCell]
  split
  · rfl
  · rfl

/-- A Phase B iteration never empties an occupied target cell. -/
theorem fillCell_occupied_mono (ws : WangSet) (sr : Option StaggeredRenderer)
    (n : Nat) (st : TileLayer × Grid) (c : Point) (q : Point)
    (h : (TileLayer.cellAt st.1 q).isEmpty = false) :
    (TileLayer.cellAt (fillCell ws sr n st c).1 q).isEmpty = false := by
  simp only [fillCell]
  split
  · exact h
  · rename_i hn
    simp only [TileLayer.cellAt, TileLayer.setCell]
    by_cases hq : q = (c.1 - st.1.pos.1, c.2 - st.1.pos.2)
    · rw [if_pos hq]
      simp only [WangTile.makeCell, Cell.isEmpty]
      cases hx : (findBestMatch ws (Grid.get st.2 c) n).tile with
      | none => exact absurd hx hn
      | some v => rfl
    · rw [if_neg hq]
      exact h

/-- Propagation after a placement never touches the grid entry of a
coordinate whose target cell is occupied. -/
theorem propagate_frozen (sr : Option StaggeredRenderer) (target : TileLayer)
    (wt : WangTile) (c0 : Point) (g : Grid) (p : Point)
    (hocc : (TileLayer.cellAt target (p - target.pos)).isEmpty = false) :
    Grid.get (propagateToNeighbors sr target wt c0 g) p = Grid.get g p := by
  simp only [propagateToNeighbors]
  refine foldl_preserve _ (fun g' => Grid.get g' p = Grid.get g p) _
    (fun g' j hj hq => ?_) g rfl
  dsimp only
  by_cases hb : (TileLayer.cellAt target
      (getSurroundingPoints c0 sr j - target.pos)).isEmpty = true
  · rw [if_neg (by simp [hb])]
    have hne : getSurroundingPoints c0 sr j ≠ p := by
      intro he
      rw [he] at hb
      rw [hb] at hocc
      simp at hocc
    rw [Grid.get_set_ne _ _ _ _ (Ne.symm hne)]
    exact hq
  · rw [if_pos (by simp [Bool.not_eq_true] at hb ⊢; exact hb)]
    exact hq

/-- A Phase B iteration never touches the grid entry of a coordinate whose
target cell is already occupied. -/
theorem fillCell_frozen (ws : WangSet) (sr : Option StaggeredRenderer)
    (n : Nat) (st : TileLayer × Grid) (c0 : Point) (p : Point)
    (hocc : (TileLayer.cellAt st.1 (p - st.1.pos)).isEmpty = false) :
    Grid.get (fillCell ws sr n st c0).2 p = Grid.get st.2 p := by
  have hocc2 : (TileLayer.cellAt (fillCell ws sr n st c0).1
      (p - st.1.pos)).isEmpty = false :=
    fillCell_occupied_mono ws sr n st c0 _ hocc
  revert hocc2
  simp only [fillCell]
  split
  · intro _; rfl
  · intro hocc2
    refine propagate_frozen sr _ _ c0 st.2 p ?_
    simpa [TileLayer.setCell] using hocc2

/-- Occupation of a coordinate persists through any sequence of Phase B
iterations, and its grid entry is frozen from that state on. -/
theorem fillSteps_frozen (ws : WangSet) (sr : Option StaggeredRenderer)
    (oracle : Nat → Nat) (steps : List (Nat × Point)) :
    ∀ (st : TileLayer × Grid) (c : Point),
      (TileLayer.cellAt st.1 (c - st.1.pos)).isEmpty = false →
      (TileLayer.cellAt (fillSteps ws sr oracle steps st).1
        (c - (fillSteps ws sr oracle steps st).1.pos)).isEmpty = false ∧
      Grid.get (fillSteps ws sr oracle steps st).2 c = Grid.get st.2 c := by
  induction steps with
  | nil => intro st c h; exact ⟨h, rfl⟩
  | cons a rest ih =>
    intro st c h
    have hpos : (fillCell ws sr (oracle a.1) st a.2).1.pos = st.1.pos :=
      fillCell_pos ws sr (oracle a.1) st a.2
    have hocc : (TileLayer.cellAt (fillCell ws sr (oracle a.1) st a.2).1
        (c - (fillCell ws sr (oracle a.1) st a.2).1.pos)).isEmpty = false := by
      rw [hpos]
      exact fillCell_occupied_mono ws sr (oracle a.1) st a.2 _ h
    have hfz : Grid.get (fillCell ws sr (oracle a.1) st a.2).2 c =
        Grid.get st.2 c :=
      fillCell_frozen ws sr (oracle a.1) st a.2 c h
    obtain ⟨h1, h2⟩ := ih (fillCell ws sr (oracle a.1) st a.2) c hocc
    exact ⟨h1, h2.trans hfz⟩

/-- C3: once a tile has been written at a coordinate during Phase B, no later
iteration modifies the constraint-grid entry at that coordinate; moreover a
single placement changes grid entries only at surrounding points whose cell
in the (updated) target layer is still empty. -/
theorem phaseB_forward_only (ws : WangSet) (sr : Option StaggeredRenderer)
    (oracle : Nat → Nat) (steps1 steps2 : List (Nat × Point))
    (st0 : TileLayer × Grid) (c : Point)
    (hocc : (TileLayer.cellAt (fillSteps ws sr oracle steps1 st0).1
      (c - (fillSteps ws sr oracle steps1 st0).1.pos)).isEmpty = false) :
    Grid.get (fillSteps ws sr oracle (steps1 ++ steps2) st0).2 c =
      Grid.get (fillSteps ws sr oracle steps1 st0).2 c ∧
    (∀ (st : TileLayer × Grid) (n : Nat) (c0 p : Point),
      Grid.get (fillCell ws sr n st c0).2 p ≠ Grid.get st.2 p →
      ∃ i : Fin 8, p = getSurroundingPoints c0 sr i ∧
        (TileLayer.cellAt (fillCell ws sr n st c0).1
          (p - st.1.pos)).isEmpty = true) := by
  constructor
  · have happ : fillSteps ws sr oracle (steps1 ++ steps2) st0 =
        fillSteps ws sr oracle steps2 (fillSteps ws sr oracle steps1 st0) := by
      simp only [fillSteps, List.foldl_append]
    rw [happ]
    exact (fillSteps_frozen ws sr oracle steps2
      (fillSteps ws sr oracle steps1 st0) c hocc).2
  · intro st n c0 p hchange
    exact fillCell_changes_only_adjacent_empty ws sr n st c0 p hchange

/-- Witness for C3: a concrete occupied coordinate whose grid entry survives
a further fill step unchanged. -/
theorem phaseB_forward_only_witness :
    ((TileLayer.cellAt
      (fillSteps wsAB none (fun _ => 0) [] (layerFull, grid3)).1
      (((0 : Int), (0 : Int)) -
        (fillSteps wsAB none (fun _ => 0) []
          (layerFull, grid3)).1.pos)).isEmpty = false) ∧
    (Grid.get
        (fillSteps wsAB none (fun _ => 0)
          ([] ++ [(0, ((1 : Int), (1 : Int)))]) (layerFull, grid3)).2
        (0, 0) =
      Grid.get (fillSteps wsAB none (fun _ => 0) [] (layerFull, grid3)).2
        (0, 0) ∧
     (∀ (st : TileLayer × Grid) (n : Nat) (c0 p : Point),
        Grid.get (fillCell wsAB none n st c0).2 p ≠ Grid.get st.2 p →
        ∃ i : Fin 8, p = getSurroundingPoints c0 none i ∧
          (TileLayer.cellAt (fillCell wsAB none n st c0).1
            (p - st.1.pos)).isEmpty = true)) :=
  ⟨by decide,
   phaseB_forward_only wsAB none (fun _ => 0) []
     [(0, ((1 : Int), (1 : Int)))] (layerFull, grid3) (0, 0) (by decide)⟩

end PhaseB

section PhaseA

/-- The four orthogonal edge directions (Top, Right, Bottom, Left) as unit
offsets, matching Phase A's four outward adjacencies. -/
def edgeOffset : Fin 4 → Point :=
  ![((0 : Int), (-1 : Int)), (1, 0), (0, 1), (-1, 0)]

/-- The WangId slots of the four edge directions: Top = 0, Right = 2,
Bottom = 4, Left = 6. -/
def edgeIndex : Fin 4 → Fin 8 := ![0, 2, 4, 6]

theorem Rect.containsPt_mk (r : Rect) (a b : Int) (h1 : r.left ≤ a)
    (h2 : a ≤ r.right) (h3 : r.top ≤ b) (h4 : b ≤ r.bottom) :
    r.containsPt (a, b) := ⟨h1, h2, h3, h4⟩

/-- Reading a slot other than the merged one through a merge-write sees the
old grid. -/
theorem get_set_merge (g : Grid) (q : Point) (adj : WangId) (i : Fin 8)
    (c : Point) (s : Fin 8) (hs : s ≠ i) :
    Grid.get (Grid.set g q (mergeFromAdjacent (Grid.get g q) adj i)) c s =
      Grid.get g c s := by
  by_cases hc : c = q
  · subst hc
    rw [Grid.get_set_same, mergeFromAdjacent_ne _ _ _ _ hs]
  · rw [Grid.get_set_ne _ _ _ _ hc]

/-- The top/bottom seeding step only writes slots 0 and 4. -/
theorem seedTopStep_other (ws : WangSet) (back : TileLayer) (region : Region)
    (rect : Rect) (g : Grid) (x : Int) (c : Point) (s : Fin 8)
    (h0 : s ≠ 0) (h4 : s ≠ 4) :
    Grid.get (seedTopStep ws back region rect g x) c s = Grid.get g c s := by
  simp only [seedTopStep]
  by_cases hb : Region.contains region ((x : Int), rect.bottom + 1) <;>
    by_cases ht : Region.contains region ((x : Int), rect.top - 1)
  · rw [if_pos hb, if_pos ht]
  · rw [if_pos hb, if_neg ht, get_set_merge _ _ _ _ _ _ h0]
  · rw [if_neg hb, if_pos ht, get_set_merge _ _ _ _ _ _ h4]
  · rw [if_neg hb, if_neg ht, get_set_merge _ _ _ _ _ _ h4,
      get_set_merge _ _ _ _ _ _ h0]

/-- The left/right seeding step only writes slots 6 and 2. -/
theorem seedSideStep_other (ws : WangSet) (back : TileLayer)
    (region : Region) (rect : Rect) (g : Grid) (y : Int) (c : Point)
    (s : Fin 8) (h6 : s ≠ 6) (h2 : s ≠ 2) :
    Grid.get (seedSideStep ws back region rect g y) c s = Grid.get g c s := by
  simp only [seedSideStep]
  by_cases hr : Region.contains region (rect.right + 1, (y : Int)) <;>
    by_cases hl : Region.contains region (rect.left - 1, (y : Int))
  · rw [if_pos hr, if_pos hl]
  · rw [if_pos hr, if_neg hl, get_set_merge _ _ _ _ _ _ h6]
  · rw [if_neg hr, if_pos hl, get_set_merge _ _ _ _ _ _ h2]
  · rw [if_neg hr, if_neg hl, get_set_merge _ _ _ _ _ _ h2,
      get_set_merge _ _ _ _ _ _ h6]

/-- The uniform-background hypothesis of C2: every cell outside the region
that is orthogonally adjacent to the region carries a background tile of the
single terrain color `C` (all eight slots of its WangId equal `C`). -/
def UniformOutside (ws : WangSet) (back : TileLayer) (region : Region)
    (C : Nat) : Prop :=
  ∀ p : Point, ¬ Region.contains region p →
    (∃ d : Fin 4, Region.contains region (p + edgeOffset d)) →
    ws.wangIdOfCell (TileLayer.cellAt back p) = uniformWangId C

/-- A merge write of a uniform constraint leaves the merged slot at color
`C`, both at the written cell and elsewhere. -/
theorem get_set_mergeC (g : Grid) (q : Point) (i : Fin 8) (C : Nat)
    (c : Point) (hC : Grid.get g c i = C) :
    Grid.get
      (Grid.set g q (mergeFromAdjacent (Grid.get g q) (uniformWangId C) i))
      c i = C := by
  by_cases hc : c = q
  · subst hc
    rw [Grid.get_set_same, mergeFromAdjacent_same]
    rfl
  · rw [Grid.get_set_ne _ _ _ _ hc]
    exact hC

theorem uniform_top (ws : WangSet) (back : TileLayer) (region : Region)
    (rect : Rect) (C : Nat) (x : Int)
    (hrin : rect ∈ region) (hval : rect.top ≤ rect.bottom)
    (hx1 : rect.left ≤ x) (hx2 : x ≤ rect.right)
    (huni : UniformOutside ws back region C)
    (ht : ¬ Region.contains region ((x : Int), rect.top - 1)) :
    ws.wangIdOfCell (TileLayer.cellAt back ((x : Int), rect.top - 1)) =
      uniformWangId C := by
  refine huni _ ht ⟨2, ?_⟩
  have hpt : ((x, rect.top - 1) : Point) + edgeOffset 2 =
      ((x : Int), rect.top) := by
    show ((x, rect.top - 1) : Point) + ((0 : Int), (1 : Int)) =
      ((x : Int), rect.top)
    rw [Prod.mk_add_mk]
    simp only [Prod.mk.injEq]
    omega
  rw [hpt]
  exact ⟨rect, hrin, Rect.containsPt_mk rect x rect.top hx1 hx2
    (le_refl _) hval⟩

theorem uniform_bottom (ws : WangSet) (back : TileLayer) (region : Region)
    (rect : Rect) (C : Nat) (x : Int)
    (hrin : rect ∈ region) (hval : rect.top ≤ rect.bottom)
    (hx1 : rect.left ≤ x) (hx2 : x ≤ rect.right)
    (huni : UniformOutside ws back region C)
    (hb : ¬ Region.contains region ((x : Int), rect.bottom + 1)) :
    ws.wangIdOfCell (TileLayer.cellAt back ((x : Int), rect.bottom + 1)) =
      uniformWangId C := by
  refine huni _ hb ⟨0, ?_⟩
  have hpt : ((x, rect.bottom + 1) : Point) + edgeOffset 0 =
      ((x : Int), rect.bottom) := by
    show ((x, rect.bottom + 1) : Point) + ((0 : Int), (-1 : Int)) =
      ((x : Int), rect.bottom)
    rw [Prod.mk_add_mk]
    simp only [Prod.mk.injEq]
    omega
  rw [hpt]
  exact ⟨rect, hrin, Rect.containsPt_mk rect x rect.bottom hx1 hx2 hval
    (le_refl _)⟩

theorem uniform_left (ws : WangSet) (back : TileLayer) (region : Region)
    (rect : Rect) (C : Nat) (y : Int)
    (hrin : rect ∈ region) (hval : rect.left ≤ rect.right)
    (hy1 : rect.top ≤ y) (hy2 : y ≤ rect.bottom)
    (huni : UniformOutside ws back region C)
    (hl : ¬ Region.contains region (rect.left - 1, (y : Int))) :
    ws.wangIdOfCell (TileLayer.cellAt back (rect.left - 1, (y : Int))) =
      uniformWangId C := by
  refine huni _ hl ⟨1, ?_⟩
  have hpt : ((rect.left - 1, y) : Point) + edgeOffset 1 =
      (rect.left, (y : Int)) := by
    show ((rect.left - 1, y) : Point) + ((1 : Int), (0 : Int)) =
      (rect.left, (y : Int))
    rw [Prod.mk_add_mk]
    simp only [Prod.mk.injEq]
    omega
  rw [hpt]
  exact ⟨rect, hrin, Rect.containsPt_mk rect rect.left y (le_refl _) hval
    hy1 hy2⟩

theorem uniform_right (ws : WangSet) (back : TileLayer) (region : Region)
    (rect : Rect) (C : Nat) (y : Int)
    (hrin : rect ∈ region) (hval : rect.left ≤ rect.right)
    (hy1 : rect.top ≤ y) (hy2 : y ≤ rect.bottom)
    (huni : UniformOutside ws back region C)
    (hr : ¬ Region.contains region (rect.right + 1, (y : Int))) :
    ws.wangIdOfCell (TileLayer.cellAt back (rect.right + 1, (y : Int))) =
      uniformWangId C := by
  refine huni _ hr ⟨3, ?_⟩
  have hpt : ((rect.right + 1, y) : Point) + edgeOffset 3 =
      (rect.right, (y : Int)) := by
    show ((rect.right + 1, y) : Point) + ((-1 : Int), (0 : Int)) =
      (rect.right, (y : Int))
    rw [Prod.mk_add_mk]
    simp only [Prod.mk.injEq]
    omega
  rw [hpt]
  exact ⟨rect, hrin, Rect.containsPt_mk rect rect.right y hval (le_refl _)
    hy1 hy2⟩

/-- Slot 0 (Top) stays at color `C` through the top/bottom seeding step. -/
theorem seedTopStep_pres0 (ws : WangSet) (back : TileLayer) (region : Region)
    (rect : Rect) (g : Grid) (x : Int) (c : Point) (C : Nat)
    (hrin : rect ∈ region) (hval : rect.top ≤ rect.bottom)
    (hx1 : rect.left ≤ x) (hx2 : x ≤ rect.right)
    (huni : UniformOutside ws back region C)
    (hC : Grid.get g c 0 = C) :
    Grid.get (seedTopStep ws back region rect g x) c 0 = C := by
  simp only [seedTopStep]
  by_cases hb : Region.contains region ((x : Int), rect.bottom + 1) <;>
    by_cases ht : Region.contains region ((x : Int), rect.top - 1)
  · rw [if_pos hb, if_pos ht]; exact hC
  · rw [if_pos hb, if_neg ht,
      uniform_top ws back region rect C x hrin hval hx1 hx2 huni ht]
    exact get_set_mergeC _ _ _ _ _ hC
  · rw [if_neg hb, if_pos ht,
      get_set_merge _ _ _ _ _ _ (by decide : (0 : Fin 8) ≠ 4)]
    exact hC
  · rw [if_neg hb, if_neg ht,
      get_set_merge _ _ _ _ _ _ (by decide : (0 : Fin 8) ≠ 4),
      uniform_top ws back region rect C x hrin hval hx1 hx2 huni ht]
    exact get_set_mergeC _ _ _ _ _ hC

/-- Slot 4 (Bottom) stays at color `C` through the top/bottom seeding step. -/
theorem seedTopStep_pres4 (ws : WangSet) (back : TileLayer) (region : Region)
    (rect : Rect) (g : Grid) (x : Int) (c : Point) (C : Nat)
    (hrin : rect ∈ region) (hval : rect.top ≤ rect.bottom)
    (hx1 : rect.left ≤ x) (hx2 : x ≤ rect.right)
    (huni : UniformOutside ws back region C)
    (hC : Grid.get g c 4 = C) :
    Grid.get (seedTopStep ws back region rect g x) c 4 = C := by
  simp only [seedTopStep]
  by_cases hb : Region.contains region ((x : Int), rect.bottom + 1) <;>
    by_cases ht : Region.contains region ((x : Int), rect.top - 1)
  · rw [if_pos hb, if_pos ht]; exact hC
  · rw [if_pos hb, if_neg ht,
      get_set_merge _ _ _ _ _ _ (by decide : (4 : Fin 8) ≠ 0)]
    exact hC
  · rw [if_neg hb, if_pos ht,
      uniform_bottom ws back region rect C x hrin hval hx1 hx2 huni hb]
    exact get_set_mergeC _ _ _ _ _ hC
  · rw [if_neg hb, if_neg ht,
      uniform_bottom ws back region rect C x hrin hval hx1 hx2 huni hb]
    refine get_set_mergeC _ _ _ _ _ ?_
    rw [get_set_merge _ _ _ _ _ _ (by decide : (4 : Fin 8) ≠ 0)]
    exact hC

/-- Slot 6 (Left) stays at color `C` through the left/right seeding step. -/
theorem seedSideStep_pres6 (ws : WangSet) (back : TileLayer)
    (region : Region) (rect : Rect) (g : Grid) (y : Int) (c : Point) (C : Nat)
    (hrin : rect ∈ region) (hval : rect.left ≤ rect.right)
    (hy1 : rect.top ≤ y) (hy2 : y ≤ rect.bottom)
    (huni : UniformOutside ws back region C)
    (hC : Grid.get g c 6 = C) :
    Grid.get (seedSideStep ws back region rect g y) c 6 = C := by
  simp only [seedSideStep]
  by_cases hr : Region.contains region (rect.right + 1, (y : Int)) <;>
    by_cases hl : Region.contains region (rect.left - 1, (y : Int))
  · rw [if_pos hr, if_pos hl]; exact hC
  · rw [if_pos hr, if_neg hl,
      uniform_left ws back region rect C y hrin hval hy1 hy2 huni hl]
    exact get_set_mergeC _ _ _ _ _ hC
  · rw [if_neg hr, if_pos hl,
      get_set_merge _ _ _ _ _ _ (by decide : (6 : Fin 8) ≠ 2)]
    exact hC
  · rw [if_neg hr, if_neg hl,
      get_set_merge _ _ _ _ _ _ (by decide : (6 : Fin 8) ≠ 2),
      uniform_left ws back region rect C y hrin hval hy1 hy2 huni hl]
    exact get_set_mergeC _ _ _ _ _ hC

/-- Slot 2 (Right) stays at color `C` through the left/right seeding step. -/
theorem seedSideStep_pres2 (ws : WangSet) (back : TileLayer)
    (region : Region) (rect : Rect) (g : Grid) (y : Int) (c : Point) (C : Nat)
    (hrin : rect ∈ region) (hval : rect.left ≤ rect.right)
    (hy1 : rect.top ≤ y) (hy2 : y ≤ rect.bottom)
    (huni : UniformOutside ws back region C)
    (hC : Grid.get g c 2 = C) :
    Grid.get (seedSideStep ws back region rect g y) c 2 = C := by
  simp only [seedSideStep]
  by_cases hr : Region.contains region (rect.right + 1, (y : Int)) <;>
    by_cases hl : Region.contains region (rect.left - 1, (y : Int))
  · rw [if_pos hr, if_pos hl]; exact hC
  · rw [if_pos hr, if_neg hl,
      get_set_merge _ _ _ _ _ _ (by decide : (2 : Fin 8) ≠ 6)]
    exact hC
  · rw [if_neg hr, if_pos hl,
      uniform_right ws back region rect C y hrin hval hy1 hy2 huni hr]
    exact get_set_mergeC _ _ _ _ _ hC
  · rw [if_neg hr, if_neg hl,
      uniform_right ws back region rect C y hrin hval hy1 hy2 huni hr]
    refine get_set_mergeC _ _ _ _ _ ?_
    rw [get_set_merge _ _ _ _ _ _ (by decide : (2 : Fin 8) ≠ 6)]
    exact hC

/-- The top/bottom seeding step establishes slot 0 = `C` at the top-edge cell
of its column when the cell above lies outside the region. -/
theorem seedTopStep_est0 (ws : WangSet) (back : TileLayer) (region : Region)
    (rect : Rect) (g : Grid) (x : Int) (C : Nat)
    (hrin : rect ∈ region) (hval : rect.top ≤ rect.bottom)
    (hx1 : rect.left ≤ x) (hx2 : x ≤ rect.right)
    (huni : UniformOutside ws back region C)
    (ht : ¬ Region.contains region ((x : Int), rect.top - 1)) :
    Grid.get (seedTopStep ws back region rect g x) ((x : Int), rect.top) 0 =
      C := by
  simp only [seedTopStep]
  rw [if_neg ht,
    uniform_top ws back region rect C x hrin hval hx1 hx2 huni ht]
  by_cases hb : Region.contains region ((x : Int), rect.bottom + 1)
  · rw [if_pos hb, Grid.get_set_same, mergeFromAdjacent_same]
    rfl
  · rw [if_neg hb,
      get_set_merge _ _ _ _ _ _ (by decide : (0 : Fin 8) ≠ 4),
      Grid.get_set_same, mergeFromAdjacent_same]
    rfl

/-- The top/bottom seeding step establishes slot 4 = `C` at the bottom-edge
cell of its column when the cell below lies outside the region. -/
theorem seedTopStep_est4 (ws : WangSet) (back : TileLayer) (region : Region)
    (rect : Rect) (g : Grid) (x : Int) (C : Nat)
    (hrin : rect ∈ region) (hval : rect.top ≤ rect.bottom)
    (hx1 : rect.left ≤ x) (hx2 : x ≤ rect.right)
    (huni : UniformOutside ws back region C)
    (hb : ¬ Region.contains region ((x : Int), rect.bottom + 1)) :
    Grid.get (seedTopStep ws back region rect g x)
      ((x : Int), rect.bottom) 4 = C := by
  simp only [seedTopStep]
  rw [if_neg hb,
    uniform_bottom ws back region rect C x hrin hval hx1 hx2 huni hb,
    Grid.get_set_same, mergeFromAdjacent_same]
  rfl

/-- The left/right seeding step establishes slot 6 = `C` at the left-edge
cell of its row when the cell to the left lies outside the region. -/
theorem seedSideStep_est6 (ws : WangSet) (back : TileLayer) (region : Region)
    (rect : Rect) (g : Grid) (y : Int) (C : Nat)
    (hrin : rect ∈ region) (hval : rect.left ≤ rect.right)
    (hy1 : rect.top ≤ y) (hy2 : y ≤ rect.bottom)
    (huni : UniformOutside ws back region C)
    (hl : ¬ Region.contains region (rect.left - 1, (y : Int))) :
    Grid.get (seedSideStep ws back region rect g y) (rect.left, (y : Int)) 6 =
      C := by
  simp only [seedSideStep]
  rw [if_neg hl,
    uniform_left ws back region rect C y hrin hval hy1 hy2 huni hl]
  by_cases hr : Region.contains region (rect.right + 1, (y : Int))
  · rw [if_pos hr, Grid.get_set_same, mergeFromAdjacent_same]
    rfl
  · rw [if_neg hr,
      get_set_merge _ _ _ _ _ _ (by decide : (6 : Fin 8) ≠ 2),
      Grid.get_set_same, mergeFromAdjacent_same]
    rfl

/-- The left/right seeding step establishes slot 2 = `C` at the right-edge
cell of its row when the cell to the right lies outside the region. -/
theorem seedSideStep_est2 (ws : WangSet) (back : TileLayer) (region : Region)
    (rect : Rect) (g : Grid) (y : Int) (C : Nat)
    (hrin : rect ∈ region) (hval : rect.left ≤ rect.right)
    (hy1 : rect.top ≤ y) (hy2 : y ≤ rect.bottom)
    (huni : UniformOutside ws back region C)
    (hr : ¬ Region.contains region (rect.right + 1, (y : Int))) :
    Grid.get (seedSideStep ws back region rect g y) (rect.right, (y : Int)) 2 =
      C := by
  simp only [seedSideStep]
  rw [if_neg hr,
    uniform_right ws back region rect C y hrin hval hy1 hy2 huni hr,
    Grid.get_set_same, mergeFromAdjacent_same]
  rfl

/-- Seeding a rectangle of the region preserves an edge slot already at the
uniform background color. -/
theorem seedRect_pres (ws : WangSet) (back : TileLayer) (region : Region)
    (rect : Rect) (g : Grid) (c : Point) (C : Nat) (d : Fin 4)
    (hrin : rect ∈ region) (hvalh : rect.left ≤ rect.right)
    (hvalv : rect.top ≤ rect.bottom)
    (huni : UniformOutside ws back region C)
    (hC : Grid.get g c (edgeIndex d) = C) :
    Grid.get (seedRect ws back region rect g) c (edgeIndex d) = C := by
  unfold seedRect
  fin_cases d
  · refine foldl_preserve _ (fun g2 => Grid.get g2 c 0 = C) _
      (fun g2 y hy hq => (seedSideStep_other ws back region rect g2 y c 0
        (by decide) (by decide)).trans hq) _ ?_
    refine foldl_preserve _ (fun g2 => Grid.get g2 c 0 = C) _
      (fun g2 x hx hq => ?_) _ hC
    obtain ⟨hx1, hx2⟩ := mem_intRange.mp hx
    exact seedTopStep_pres0 ws back region rect g2 x c C hrin hvalv hx1 hx2
      huni hq
  · refine foldl_preserve _ (fun g2 => Grid.get g2 c 2 = C) _
      (fun g2 y hy hq => ?_) _ ?_
    · obtain ⟨hy1, hy2⟩ := mem_intRange.mp hy
      exact seedSideStep_pres2 ws back region rect g2 y c C hrin hvalh hy1
        hy2 huni hq
    · refine foldl_preserve _ (fun g2 => Grid.get g2 c 2 = C) _
        (fun g2 x hx hq => (seedTopStep_other ws back region rect g2 x c 2
          (by decide) (by decide)).trans hq) _ hC
  · refine foldl_preserve _ (fun g2 => Grid.get g2 c 4 = C) _
      (fun g2 y hy hq => (seedSideStep_other ws back region rect g2 y c 4
        (by decide) (by decide)).trans hq) _ ?_
    refine foldl_preserve _ (fun g2 => Grid.get g2 c 4 = C) _
      (fun g2 x hx hq => ?_) _ hC
    obtain ⟨hx1, hx2⟩ := mem_intRange.mp hx
    exact seedTopStep_pres4 ws back region rect g2 x c C hrin hvalv hx1 hx2
      huni hq
  · refine foldl_preserve _ (fun g2 => Grid.get g2 c 6 = C) _
      (fun g2 y hy hq => ?_) _ ?_
    · obtain ⟨hy1, hy2⟩ := mem_intRange.mp hy
      exact seedSideStep_pres6 ws back region rect g2 y c C hrin hvalh hy1
        hy2 huni hq
    · refine foldl_preserve _ (fun g2 => Grid.get g2 c 6 = C) _
        (fun g2 x hx hq => (seedTopStep_other ws back region rect g2 x c 6
          (by decide) (by decide)).trans hq) _ hC

/-- Seeding the rectangle containing a border cell establishes the
outward-facing edge slot at the uniform background color. -/
theorem seedRect_est (ws : WangSet) (back : TileLayer) (region : Region)
    (rect : Rect) (g : Grid) (C : Nat) (c : Point) (d : Fin 4)
    (hrin : rect ∈ region) (hvalh : rect.left ≤ rect.right)
    (hvalv : rect.top ≤ rect.bottom)
    (huni : UniformOutside ws back region C)
    (hrc : rect.containsPt c)
    (hout : ¬ Region.contains region (c + edgeOffset d)) :
    Grid.get (seedRect ws back region rect g) c (edgeIndex d) = C := by
  obtain ⟨cx, cy⟩ := c
  obtain ⟨h1, h2, h3, h4⟩ := hrc
  unfold seedRect
  fin_cases d
  · have hout2 : ¬ Region.contains region ((cx, cy) + edgeOffset 0) := hout
    have hpt : ((cx, cy) : Point) + edgeOffset 0 = (cx, cy - 1) := by
      show ((cx, cy) : Point) + ((0 : Int), (-1 : Int)) = (cx, cy - 1)
      rw [Prod.mk_add_mk, Prod.mk.injEq]
      exact ⟨by omega, by omega⟩
    rw [hpt] at hout2
    have hcy : cy = rect.top := by
      by_contra hne
      exact hout2 ⟨rect, hrin,
        Rect.containsPt_mk rect cx (cy - 1) h1 h2 (by omega) (by omega)⟩
    subst hcy
    refine foldl_preserve _ (fun g2 => Grid.get g2 (cx, rect.top) 0 = C) _
      (fun g2 y hy hq => (seedSideStep_other ws back region rect g2 y _ 0
        (by decide) (by decide)).trans hq) _ ?_
    dsimp only
    have hmem : cx ∈ intRange rect.left rect.right :=
      mem_intRange.mpr ⟨h1, h2⟩
    obtain ⟨l1, l2, hsplit⟩ := List.append_of_mem hmem
    rw [hsplit, List.foldl_append, List.foldl_cons]
    refine foldl_preserve _ (fun g2 => Grid.get g2 (cx, rect.top) 0 = C) _
      (fun g2 x hx hq => ?_) _ ?_
    · have hx' : x ∈ intRange rect.left rect.right := by
        rw [hsplit]
        exact List.mem_append_right _ (List.mem_cons_of_mem _ hx)
      obtain ⟨hx1, hx2⟩ := mem_intRange.mp hx'
      exact seedTopStep_pres0 ws back region rect g2 x _ C hrin hvalv hx1
        hx2 huni hq
    · exact seedTopStep_est0 ws back region rect _ cx C hrin hvalv h1 h2
        huni hout2
  · have hout2 : ¬ Region.contains region ((cx, cy) + edgeOffset 1) := hout
    have hpt : ((cx, cy) : Point) + edgeOffset 1 = (cx + 1, cy) := by
      show ((cx, cy) : Point) + ((1 : Int), (0 : Int)) = (cx + 1, cy)
      rw [Prod.mk_add_mk, Prod.mk.injEq]
      exact ⟨by omega, by omega⟩
    rw [hpt] at hout2
    have hcx : cx = rect.right := by
      by_contra hne
      exact hout2 ⟨rect, hrin,
        Rect.containsPt_mk rect (cx + 1) cy (by omega) (by omega) h3 h4⟩
    subst hcx
    have hmem : cy ∈ intRange rect.top rect.bottom :=
      mem_intRange.mpr ⟨h3, h4⟩
    obtain ⟨l1, l2, hsplit⟩ := List.append_of_mem hmem
    rw [hsplit, List.foldl_append, List.foldl_cons]
    refine foldl_preserve _
      (fun g2 => Grid.get g2 (rect.right, cy) 2 = C) _
      (fun g2 y hy hq => ?_) _ ?_
    · have hy' : y ∈ intRange rect.top rect.bottom := by
        rw [hsplit]
        exact List.mem_append_right _ (List.mem_cons_of_mem _ hy)
      obtain ⟨hy1, hy2⟩ := mem_intRange.mp hy'
      exact seedSideStep_pres2 ws back region rect g2 y _ C hrin hvalh hy1
        hy2 huni hq
    · exact seedSideStep_est2 ws back region rect _ cy C hrin hvalh h3 h4
        huni hout2
  · have hout2 : ¬ Region.contains region ((cx, cy) + edgeOffset 2) := hout
    have hpt : ((cx, cy) : Point) + edgeOffset 2 = (cx, cy + 1) := by
      show ((cx, cy) : Point) + ((0 : Int), (1 : Int)) = (cx, cy + 1)
      rw [Prod.mk_add_mk, Prod.mk.injEq]
      exact ⟨by omega, by omega⟩
    rw [hpt] at hout2
    have hcy : cy = rect.bottom := by
      by_contra hne
      exact hout2 ⟨rect, hrin,
        Rect.containsPt_mk rect cx (cy + 1) h1 h2 (by omega) (by omega)⟩
    subst hcy
    refine foldl_preserve _
      (fun g2 => Grid.get g2 (cx, rect.bottom) 4 = C) _
      (fun g2 y hy hq => (seedSideStep_other ws back region rect g2 y _ 4
        (by decide) (by decide)).trans hq) _ ?_
    dsimp only
    have hmem : cx ∈ intRange rect.left rect.right :=
      mem_intRange.mpr ⟨h1, h2⟩
    obtain ⟨l1, l2, hsplit⟩ := List.append_of_mem hmem
    rw [hsplit, List.foldl_append, List.foldl_cons]
    refine foldl_preserve _
      (fun g2 => Grid.get g2 (cx, rect.bottom) 4 = C) _
      (fun g2 x hx hq => ?_) _ ?_
    · have hx' : x ∈ intRange rect.left rect.right := by
        rw [hsplit]
        exact List.mem_append_right _ (List.mem_cons_of_mem _ hx)
      obtain ⟨hx1, hx2⟩ := mem_intRange.mp hx'
      exact seedTopStep_pres4 ws back region rect g2 x _ C hrin hvalv hx1
        hx2 huni hq
    · exact seedTopStep_est4 ws back region rect _ cx C hrin hvalv h1 h2
        huni hout2
  · have hout2 : ¬ Region.contains region ((cx, cy) + edgeOffset 3) := hout
    have hpt : ((cx, cy) : Point) + edgeOffset 3 = (cx - 1, cy) := by
      show ((cx, cy) : Point) + ((-1 : Int), (0 : Int)) = (cx - 1, cy)
      rw [Prod.mk_add_mk, Prod.mk.injEq]
      exact ⟨by omega, by omega⟩
    rw [hpt] at hout2
    have hcx : cx = rect.left := by
      by_contra hne
      exact hout2 ⟨rect, hrin,
        Rect.containsPt_mk rect (cx - 1) cy (by omega) (by omega) h3 h4⟩
    subst hcx
    have hmem : cy ∈ intRange rect.top rect.bottom :=
      mem_intRange.mpr ⟨h3, h4⟩
    obtain ⟨l1, l2, hsplit⟩ := List.append_of_mem hmem
    rw [hsplit, List.foldl_append, List.foldl_cons]
    refine foldl_preserve _
      (fun g2 => Grid.get g2 (rect.left, cy) 6 = C) _
      (fun g2 y hy hq => ?_) _ ?_
    · have hy' : y ∈ intRange rect.top rect.bottom := by
        rw [hsplit]
        exact List.mem_append_right _ (List.mem_cons_of_mem _ hy)
      obtain ⟨hy1, hy2⟩ := mem_intRange.mp hy'
      exact seedSideStep_pres6 ws back region rect g2 y _ C hrin hvalh hy1
        hy2 huni hq
    · exact seedSideStep_est6 ws back region rect _ cy C hrin hvalh h3 h4
        huni hout2

/-- C2: for a fill region whose outside-adjacent cells all carry background
tiles of one uniform terrain color `C` (and whose rectangles are valid, as
QRegion guarantees), after Phase A every border cell's outward-facing edge
slot in the constraint grid equals `C`. -/
theorem phaseA_uniform_border (ws : WangSet) (back : TileLayer)
    (region : Region) (g0 : Grid) (C : Nat)
    (hrects : ∀ r ∈ region, r.left ≤ r.right ∧ r.top ≤ r.bottom)
    (huni : UniformOutside ws back region C)
    (c : Point) (d : Fin 4)
    (hc : Region.contains region c)
    (hout : ¬ Region.contains region (c + edgeOffset d)) :
    Grid.get (phaseA ws back region g0) c (edgeIndex d) = C := by
  obtain ⟨r, hrm, hrc⟩ := hc
  obtain ⟨l1, l2, hsplit⟩ := List.append_of_mem hrm
  subst hsplit
  unfold phaseA
  rw [List.foldl_append, List.foldl_cons]
  refine foldl_preserve _
    (fun g2 => Grid.get g2 c (edgeIndex d) = C) _
    (fun g2 r2 hr2 hq => ?_) _ ?_
  · obtain ⟨hv1, hv2⟩ := hrects r2
      (List.mem_append_right _ (List.mem_cons_of_mem _ hr2))
    exact seedRect_pres ws back _ r2 g2 c C d
      (List.mem_append_right _ (List.mem_cons_of_mem _ hr2)) hv1 hv2 huni hq
  · obtain ⟨hv1, hv2⟩ := hrects r (List.mem_append_right _
      (List.mem_cons_self r l2))
    exact seedRect_est ws back _ r _ C c d
      (List.mem_append_right _ (List.mem_cons_self r l2)) hv1 hv2 huni hrc
      hout

/-- Witness for C2 on a 1-by-1 region surrounded by a uniform color-1
background. -/
theorem phaseA_uniform_border_witness :
    Grid.get
      (phaseA
        ⟨[tileA], fun _ => 1, false, fun _ => [], fun _ => false,
          fun _ => uniformWangId 1, fun _ => emptyWangId⟩
        layerFull [Rect.mk 0 0 0 0] emptyGrid)
      (0, 0) (edgeIndex 0) = 1 :=
  phaseA_uniform_border
    ⟨[tileA], fun _ => 1, false, fun _ => [], fun _ => false,
      fun _ => uniformWangId 1, fun _ => emptyWangId⟩
    layerFull [Rect.mk 0 0 0 0] emptyGrid 1
    (by decide)
    (fun p _ _ => rfl)
    (0, 0) 0 (by decide) (by decide)

end PhaseA

end Tiled
